import Mathlib

/-!
# Key/value conformance checks of `leveldb/testutil`

A shallow embedding of `kvtest.go` (`TestFind`, `TestFindAfterLast`, `TestGet`,
`TestHas`, `TestIter`, `KeyValueTesting`, the closure `Test` of `AllKeyValueTesting`)
together with the fail handler that `RunSuite` of `ginkgo.go` registers.

* A candidate store is a record of optional capabilities; a capability is a function
  of the key, so `db.TestFind(key)` denotes one result per key.
* A check is a value of `Outcome`: the events it produced in order (calls on the
  candidate, sampler requests, oracle invocations), how many expectations failed, and
  whether it ran to its end.  A failed `gomega.Expect` is handed to the registered fail
  handler: `ginkgo.Fail` (registered by `RunSuite`) stops the running entry, a handler
  that only records lets it go on.  Both are covered by `FailHandler`.
* Helpers of the package that are not in the two source files are either fields of
  `Helpers` (no assumption made on them) or definitions marked as modelled from the
  specification.
* The generator `rnd` is represented by what the samplers hand to their callbacks
  (`Draws`, and the argument `order` of the three lookup checks).
* Time budgets (`done`, the `30.0` / `200.0` arguments of `ginkgo.It`) are not modelled.
-/

namespace Testutil

/-- A Go `[]byte`; the nil slice and the empty slice are both `[]`, as `gomega.Equal`
compares byte slices with `bytes.Equal`. -/
abbrev Bytes := List (Fin 256)

/-- A Go `error` value that is not nil. -/
inductive Error where
  | notFound
  | other (code : Nat)
deriving DecidableEq, Repr

/-- The sentinel `errors.ErrNotFound`. -/
def ErrNotFound : Error := Error.notFound

/-- The query range `util.Range`: `Start` is included, `Limit` is not, and a nil bound
(`none`) leaves that side unbounded. -/
structure Range where
  Start : Option Bytes
  Limit : Option Bytes
deriving DecidableEq, Repr

/-- Modelled from the spec: the type `KeyValue` is not among the sources. §3: "an
ordered sequence of (key, value) pairs". -/
structure KeyValue where
  entries : List (Bytes × Bytes)
deriving DecidableEq, Repr

/-- Modelled from the spec: `length` of §3. -/
def KeyValue.Len (kv : KeyValue) : Nat := kv.entries.length

/-- Modelled from the spec: `entryAt(i)` of §3, the pair (key, value) at position `i`. -/
def KeyValue.Index (kv : KeyValue) (i : Nat) : Bytes × Bytes := kv.entries.getD i ([], [])

/-- Modelled from the spec: `slice(start, limit)` of §3, the "sub-dataset over half-open
index range [start, limit), preserving order". -/
def KeyValue.Slice (kv : KeyValue) (start limit : Nat) : KeyValue :=
  ⟨(kv.entries.drop start).take (limit - start)⟩

/-- Modelled from the spec: `rangeFor(start, limit)` of §3, "a query-range object whose
lower bound is the key at `start` (or unbounded if start=0) and upper bound is the key at
`limit` (or unbounded if limit=length)". -/
def KeyValue.Range (kv : KeyValue) (start limit : Nat) : Range :=
  { Start := if start = 0 then none else some (kv.Index start).1
    Limit := if limit = kv.Len then none else some (kv.Index limit).1 }

/-- Modelled from the spec: `cloneIndependent()` of §3, a copy with the same entries. -/
def KeyValue.Clone (kv : KeyValue) : KeyValue := ⟨kv.entries⟩

/-- Modelled from the spec: `Min` is not among the sources. §4.6 bounds the passes "to
min(datasetLength, 50) samples". -/
def Min (x y : Nat) : Nat := if x < y then x else y

/-- An iterator handed out by a candidate: its error state and what it would yield. -/
structure Iterator where
  Error : Option Error
  items : List (Bytes × Bytes)

/-- The helpers of the package that the checks call and that are not among the sources.
Nothing is assumed about them. -/
structure Helpers where
  /-- The probe key (first result) of `kv.IndexInexact(i)`. -/
  inexact : KeyValue → Nat → Bytes
  /-- The key derivation `BytesAfter`. -/
  BytesAfter : Bytes → Bytes
  /-- Whether `DoIteratorTesting` finds the iterator in agreement with the dataset. -/
  DoIteratorTesting : KeyValue → Iterator → Bool

/-- The call `kv.IndexInexact(i)`: probe key, exact key, value. -/
def KeyValue.IndexInexact (kv : KeyValue) (H : Helpers) (i : Nat) : Bytes × Bytes × Bytes :=
  (H.inexact kv i, (kv.Index i).1, (kv.Index i).2)

/-- The capability interface `Find`. -/
structure Find where
  TestFind : Bytes → Bytes × Bytes × Option Error

/-- The capability interface `Get`. -/
structure Get where
  TestGet : Bytes → Bytes × Option Error

/-- The capability interface `Has`. -/
structure Has where
  TestHas : Bytes → Bool × Option Error

/-- The capability interface `NewIterator`. -/
structure NewIterator where
  TestNewIterator : Option Range → Iterator

/-- A candidate store: the capabilities it has, and a tag telling candidates apart. -/
structure Store where
  tag : Nat
  find : Option Find
  get : Option Get
  has : Option Has
  newIterator : Option NewIterator

/-- The Go type `DB` (`interface{}`): nil or a candidate. -/
abbrev DB := Option Store

/-- The type assertion `p.(Find)`. -/
def DB.asFind (p : DB) : Option Find := p.bind Store.find

/-- The type assertion `p.(Get)`. -/
def DB.asGet (p : DB) : Option Get := p.bind Store.get

/-- The type assertion `p.(Has)`. -/
def DB.asHas (p : DB) : Option Has := p.bind Store.has

/-- The type assertion `p.(NewIterator)`. -/
def DB.asNewIterator (p : DB) : Option NewIterator := p.bind Store.newIterator

/-- What a run does that can be observed from outside. -/
inductive Event where
  | find (key : Bytes)
  | get (key : Bytes)
  | has (key : Bytes)
  | newIterator (r : Option Range)
  | release
  | testIter (r : Option Range) (expected : KeyValue)
  | shuffledIndex (n round : Nat)
  | randomIndex (n round : Nat)
  | randomRange (n round : Nat)
  | setup (kv : KeyValue)
  | teardown (p : Option Nat)
deriving DecidableEq, Repr

/-- The registered gomega fail handler: `halt` stops the running entry at the first
failed expectation (`ginkgo.Fail`, registered by `RunSuite`), `resume` records it and
returns. -/
inductive FailHandler where
  | halt
  | resume
deriving DecidableEq, Repr

/-- The result of running a piece of a check: `val` is `none` when the run was stopped by
the fail handler, `log` the events in order, `failures` the number of failed
expectations. -/
structure Outcome (α : Type) where
  val : Option α
  log : List Event
  failures : Nat

/-- Return without doing anything. -/
def Outcome.ret {α : Type} (a : α) : Outcome α := ⟨some a, [], 0⟩

/-- Sequencing: a stopped run stays stopped. -/
def Outcome.andThen {α β : Type} (m : Outcome α) (f : α → Outcome β) : Outcome β :=
  match m.val with
  | none => ⟨none, m.log, m.failures⟩
  | some a => ⟨(f a).val, m.log ++ (f a).log, m.failures + (f a).failures⟩

instance : Monad Outcome where
  pure := Outcome.ret
  bind := Outcome.andThen

/-- Record one event. -/
def emit (e : Event) : Outcome Unit := ⟨some (), [e], 0⟩

/-- The matcher `gomega.HaveOccurred()`. -/
def HaveOccurred (err : Option Error) : Bool := err.isSome

/-- The matcher `gomega.Equal(expected)`. -/
def Equal {α : Type} [DecidableEq α] (expected actual : α) : Bool := decide (actual = expected)

/-- The matcher `gomega.BeTrue()`. -/
def BeTrue (b : Bool) : Bool := b

/-- The assertion `gomega.Expect(actual).Should(matcher)`. -/
def Should {α : Type} (h : FailHandler) (actual : α) (matcher : α → Bool) : Outcome Unit :=
  if matcher actual then Outcome.ret ()
  else ⟨match h with
        | FailHandler.halt => none
        | FailHandler.resume => some (), [], 1⟩

/-- The assertion `gomega.Expect(actual).ShouldNot(matcher)`. -/
def ShouldNot {α : Type} (h : FailHandler) (actual : α) (matcher : α → Bool) : Outcome Unit :=
  Should h actual (fun a => !matcher a)

/-- Run `fn` on each element in turn. -/
def forEach {ι : Type} : List ι → (ι → Outcome Unit) → Outcome Unit
  | [], _ => Outcome.ret ()
  | i :: rest, fn => Outcome.andThen (fn i) (fun _ => forEach rest fn)

/-- Modelled from the spec: `ShuffledIndex` is not among the sources. §4.2: it "produces a
lazy sequence of the n indices [0,n) in a pseudo-random permutation"; `order` is the
sequence handed to `fn`. -/
def ShuffledIndex (order : List Nat) (n round : Nat) (fn : Nat → Outcome Unit) : Outcome Unit :=
  Outcome.andThen (emit (Event.shuffledIndex n round)) (fun _ => forEach order fn)

/-- Modelled from the spec: `RandomIndex` is not among the sources. §4.2: it "produces k
indices drawn ... from [0,n)"; `indices` is the sequence handed to `fn`. -/
def RandomIndex (indices : List Nat) (n round : Nat) (fn : Nat → Outcome Unit) : Outcome Unit :=
  Outcome.andThen (emit (Event.randomIndex n round)) (fun _ => forEach indices fn)

/-- Modelled from the spec: `RandomRange` is not among the sources. §4.2: it "produces k
pairs (start, limit) with 0 ≤ start ≤ limit ≤ n"; `pairs` is the sequence handed to `fn`. -/
def RandomRange (pairs : List (Nat × Nat)) (n round : Nat) (fn : Nat → Nat → Outcome Unit) :
    Outcome Unit :=
  Outcome.andThen (emit (Event.randomRange n round)) (fun _ => forEach pairs (fun x => fn x.1 x.2))

/-- The call `db.TestFind(key)`. -/
def callFind (db : Find) (key : Bytes) : Outcome (Bytes × Bytes × Option Error) :=
  ⟨some (db.TestFind key), [Event.find key], 0⟩

/-- The call `db.TestGet(key)`. -/
def callGet (db : Get) (key : Bytes) : Outcome (Bytes × Option Error) :=
  ⟨some (db.TestGet key), [Event.get key], 0⟩

/-- The call `db.TestHas(key)`. -/
def callHas (db : Has) (key : Bytes) : Outcome (Bool × Option Error) :=
  ⟨some (db.TestHas key), [Event.has key], 0⟩

/-- The call `db.TestNewIterator(r)`. -/
def callNewIterator (db : NewIterator) (r : Option Range) : Outcome Iterator :=
  ⟨some (db.TestNewIterator r), [Event.newIterator r], 0⟩

/-- The callback that `TestFind` hands to `ShuffledIndex`. -/
def findAt (h : FailHandler) (H : Helpers) (db : Find) (kv : KeyValue) (i : Nat) : Outcome Unit := do
  let (key_, key, value) := kv.IndexInexact H i
  -- Using exact key.
  let (rkey, rvalue, err) ← callFind db key
  ShouldNot h err HaveOccurred
  Should h rkey (Equal key)
  Should h rvalue (Equal value)
  -- Using inexact key.
  let (rkey, rvalue, err) ← callFind db key_
  ShouldNot h err HaveOccurred
  Should h rkey (Equal key)
  Should h rvalue (Equal value)

/-- The function `TestFind`. -/
def TestFind (h : FailHandler) (H : Helpers) (order : List Nat) (db : Find) (kv : KeyValue) :
    Outcome Unit :=
  ShuffledIndex order kv.Len 1 (findAt h H db kv)

/-- The function `TestFindAfterLast`. -/
def TestFindAfterLast (h : FailHandler) (H : Helpers) (db : Find) (kv : KeyValue) :
    Outcome Unit := do
  let key : Bytes := if kv.Len > 0 then H.BytesAfter (kv.Index (kv.Len - 1)).1 else []
  let (_, _, err) ← callFind db key
  Should h err HaveOccurred
  Should h err (Equal (some ErrNotFound))

/-- The callback that `TestGet` hands to `ShuffledIndex`. -/
def getAt (h : FailHandler) (H : Helpers) (db : Get) (kv : KeyValue) (i : Nat) : Outcome Unit := do
  let (key_, key, value) := kv.IndexInexact H i
  -- Using exact key.
  let (rvalue, err) ← callGet db key
  ShouldNot h err HaveOccurred
  Should h rvalue (Equal value)
  -- Using inexact key.
  if key_.length > 0 then
    let (_, err) ← callGet db key_
    Should h err HaveOccurred
    Should h err (Equal (some ErrNotFound))

/-- The function `TestGet`. -/
def TestGet (h : FailHandler) (H : Helpers) (order : List Nat) (db : Get) (kv : KeyValue) :
    Outcome Unit :=
  ShuffledIndex order kv.Len 1 (getAt h H db kv)

/-- The callback that `TestHas` hands to `ShuffledIndex`. -/
def hasAt (h : FailHandler) (H : Helpers) (db : Has) (kv : KeyValue) (i : Nat) : Outcome Unit := do
  let (key_, key, _) := kv.IndexInexact H i
  -- Using exact key.
  let (ret, err) ← callHas db key
  ShouldNot h err HaveOccurred
  Should h ret BeTrue
  -- Using inexact key.
  if key_.length > 0 then
    let (ret, err) ← callHas db key_
    ShouldNot h err HaveOccurred
    ShouldNot h ret BeTrue

/-- The function `TestHas`. -/
def TestHas (h : FailHandler) (H : Helpers) (order : List Nat) (db : Has) (kv : KeyValue) :
    Outcome Unit :=
  ShuffledIndex order kv.Len 1 (hasAt h H db kv)

/-- The function `TestIter`; its invocation is recorded with its arguments. -/
def TestIter (h : FailHandler) (H : Helpers) (db : NewIterator) (r : Option Range)
    (kv : KeyValue) : Outcome Unit := do
  emit (Event.testIter r kv)
  let iter ← callNewIterator db r
  ShouldNot h iter.Error HaveOccurred
  Should h iter (H.DoIteratorTesting kv)
  emit Event.release

/-- What the samplers hand to their callbacks during one run: the index orders of the
three `ShuffledIndex` calls, the indices of `RandomIndex`, the pairs of `RandomRange`. -/
structure Draws where
  find : List Nat
  get : List Nat
  has : List Nat
  indices : List Nat
  pairs : List (Nat × Nat)

/-- The local type `slice` of the index pass. -/
structure slice where
  r : Range
  start : Nat
  limit : Nat

/-- The callback that the index pass hands to `RandomIndex`; `ginkgo.By` runs its
callback on the spot. -/
def indexAt (h : FailHandler) (H : Helpers) (db : NewIterator) (kv : KeyValue) (i : Nat) :
    Outcome Unit :=
  let (key_, _, _) := kv.IndexInexact H i
  forEach
    [ (⟨⟨some key_, none⟩, i, kv.Len⟩ : slice),
      (⟨⟨none, some key_⟩, 0, i⟩ : slice) ]
    (fun x => TestIter h H db (some x.r) (kv.Slice x.start x.limit))

/-- The callback that the range pass hands to `RandomRange`. -/
def rangeAt (h : FailHandler) (H : Helpers) (db : NewIterator) (kv : KeyValue)
    (start limit : Nat) : Outcome Unit :=
  let r := kv.Range start limit
  TestIter h H db (some r) (kv.Slice start limit)

/-- The body of "Should find all keys with Find". -/
def itFind (h : FailHandler) (H : Helpers) (d : Draws) (kv : KeyValue) (p : DB) : Outcome Unit :=
  match p.asFind with
  | some db => TestFind h H d.find db kv
  | none => pure ()

/-- The body of "Should return error if Find on key after the last". -/
def itFindAfterLast (h : FailHandler) (H : Helpers) (kv : KeyValue) (p : DB) : Outcome Unit :=
  match p.asFind with
  | some db => TestFindAfterLast h H db kv
  | none => pure ()

/-- The body of "Should only find exact key with Get". -/
def itGet (h : FailHandler) (H : Helpers) (d : Draws) (kv : KeyValue) (p : DB) : Outcome Unit :=
  match p.asGet with
  | some db => TestGet h H d.get db kv
  | none => pure ()

/-- The body of "Should only find present key with Has". -/
def itHas (h : FailHandler) (H : Helpers) (d : Draws) (kv : KeyValue) (p : DB) : Outcome Unit :=
  match p.asHas with
  | some db => TestHas h H d.has db kv
  | none => pure ()

/-- The body of "Should iterates and seeks correctly". -/
def itIter (h : FailHandler) (H : Helpers) (kv : KeyValue) (p : DB) : Outcome Unit :=
  match p.asNewIterator with
  | some db => TestIter h H db none kv.Clone
  | none => pure ()

/-- The body of the first "Should iterates and seeks slice correctly" (index pass). -/
def itIterIndex (h : FailHandler) (H : Helpers) (d : Draws) (kv : KeyValue) (p : DB) :
    Outcome Unit :=
  match p.asNewIterator with
  | some db => RandomIndex d.indices kv.Len (Min kv.Len 50) (indexAt h H db kv)
  | none => pure ()

/-- The body of the second "Should iterates and seeks slice correctly" (range pass). -/
def itIterRange (h : FailHandler) (H : Helpers) (d : Draws) (kv : KeyValue) (p : DB) :
    Outcome Unit :=
  match p.asNewIterator with
  | some db => RandomRange d.pairs kv.Len (Min kv.Len 50) (rangeAt h H db kv)
  | none => pure ()

/-- An entry registered with `ginkgo.It`; its body reads the variable `p` when it runs. -/
structure Entry where
  text : String
  body : DB → Outcome Unit

/-- What `KeyValueTesting` leaves with the framework: the variable `p` its closures share,
the `BeforeEach` hooks (each returns the new value of `p`), the `AfterEach` hooks, and the
entries. -/
structure Registered where
  p : DB
  beforeEach : List (DB → Outcome DB)
  afterEach : List (DB → Outcome Unit)
  entries : List Entry

/-- The function `KeyValueTesting`. The collaborators `setup` and `teardown` are runs of
their own; a nil `teardown` is `none`. -/
def KeyValueTesting (h : FailHandler) (H : Helpers) (d : Draws) (kv : KeyValue) (p : DB)
    (setup : KeyValue → Outcome DB) (teardown : Option (DB → Outcome Unit)) : Registered :=
  { p := p
    beforeEach := if p.isNone then [fun _ => setup kv] else []
    afterEach :=
      if p.isNone then
        match teardown with
        | some td => [fun q => td q]
        | none => []
      else []
    entries :=
      [ ⟨"Should find all keys with Find", itFind h H d kv⟩,
        ⟨"Should return error if Find on key after the last", itFindAfterLast h H kv⟩,
        ⟨"Should only find exact key with Get", itGet h H d kv⟩,
        ⟨"Should only find present key with Has", itHas h H d kv⟩,
        ⟨"Should iterates and seeks correctly", itIter h H kv⟩,
        ⟨"Should iterates and seeks slice correctly", itIterIndex h H d kv⟩,
        ⟨"Should iterates and seeks slice correctly", itIterRange h H d kv⟩ ] }

/-- The closure `Test` of `AllKeyValueTesting` for one dataset, at the time its entries
run. `Defer("setup", ..)` and `Defer("teardown", ..)` put the collaborators in the groups
that `RunSuite` runs once before and once after the whole suite, so when an entry runs the
variable `p` of the closure holds `setup(*kv)` if `setup` is not nil, and what `body`
returned (or nil) otherwise; `deferred` is that value of `setup(*kv)`. -/
def AllKeyValueTesting.Test (h : FailHandler) (H : Helpers) (d : Draws)
    (body : Option (KeyValue → DB)) (deferred : Option DB) (kv : KeyValue) : Registered :=
  let p : DB :=
    match body with
    | some b => b kv
    | none => none
  let pAtRun : DB :=
    match deferred with
    | some q => q
    | none => p
  KeyValueTesting h H d kv p (fun _ => pure pAtRun) none

/-- Run the hooks in order, each on the value of `p` the one before left. -/
def runHooks : List (DB → Outcome DB) → DB → Outcome DB
  | [], p => Outcome.ret p
  | hook :: rest, p => Outcome.andThen (hook p) (runHooks rest)

/-- Modelled from the spec: the test framework is not among the sources. §1: it "registers
test cases, runs setup/teardown around them, and reports pass/fail". One entry is run as:
the `BeforeEach` hooks, then the body on the current `p`, then the `AfterEach` hooks on the
current `p`, the latter also after a stopped body. -/
def Registered.run (reg : Registered) (e : Entry) : Outcome Unit :=
  let before := runHooks reg.beforeEach reg.p
  let p := before.val.getD reg.p
  let main := Outcome.andThen before e.body
  let after := forEach reg.afterEach (fun hook => hook p)
  ⟨main.val.bind (fun _ => after.val), main.log ++ after.log, main.failures + after.failures⟩

/-- A sampler request among the events. -/
def Event.isRequest : Event → Bool
  | Event.shuffledIndex _ _ => true
  | Event.randomIndex _ _ => true
  | Event.randomRange _ _ => true
  | _ => false

/-- An invocation of the iterator oracle among the events. -/
def Event.isTestIter : Event → Bool
  | Event.testIter _ _ => true
  | _ => false

/-- The dataset with the single entry "k" -> "v". -/
def oneKeyValue : KeyValue := ⟨[([107], [118])]⟩

/-- The dataset with the entries "a" -> "1", "c" -> "2", "e" -> "3". -/
def threeKeyValue : KeyValue := ⟨[([97], [49]), ([99], [50]), ([101], [51])]⟩

/-- Modelled from the spec: the helpers as §3 and §4.1 word them. The probe key at
position 0 is "any key < key[0] when i=0, using an empty/zero key", and further on it is
"constructed by taking the predecessor key and ... appending a byte"; `BytesAfter` is "the
lexicographically smallest key strictly greater than k"; the oracle asks that "full
forward traversal ... yield exactly the expected ordered sequence". -/
def specHelpers : Helpers :=
  { inexact := fun kv i =>
      match i with
      | 0 => []
      | j + 1 => (kv.Index j).1 ++ [0]
    BytesAfter := fun k => k ++ [0]
    DoIteratorTesting := fun kv it => decide (it.items = kv.entries) }

/-- A reference `Find` over a dataset: the first entry whose key is not below the probe. -/
def refFind (kv : KeyValue) : Find :=
  ⟨fun key =>
    match kv.entries.find? (fun e => decide (key ≤ e.1)) with
    | some e => (e.1, e.2, none)
    | none => ([], [], some ErrNotFound)⟩

/-- A reference `Get` over a dataset: the entry with exactly that key. -/
def refGet (kv : KeyValue) : Get :=
  ⟨fun key =>
    match kv.entries.find? (fun e => decide (e.1 = key)) with
    | some e => (e.2, none)
    | none => ([], some ErrNotFound)⟩

/-- A reference `Has` over a dataset. -/
def refHas (kv : KeyValue) : Has :=
  ⟨fun key => (kv.entries.any (fun e => decide (e.1 = key)), none)⟩

/-- Whether a key lies in a query range. -/
def Range.contains (r : Option Range) (key : Bytes) : Bool :=
  match r with
  | none => true
  | some r =>
    (match r.Start with
      | none => true
      | some s => decide (s ≤ key)) &&
    (match r.Limit with
      | none => true
      | some l => decide (key < l))

/-- A reference `NewIterator` over a dataset: the entries inside the range, no error. -/
def refNewIterator (kv : KeyValue) : NewIterator :=
  ⟨fun r => ⟨none, kv.entries.filter (fun e => Range.contains r e.1)⟩⟩

/-- A reference candidate with all four capabilities. -/
def refStore (tag : Nat) (kv : KeyValue) : Store :=
  ⟨tag, some (refFind kv), some (refGet kv), some (refHas kv), some (refNewIterator kv)⟩

/-- A `Get` over "k" -> "v" for which the lookup of the empty key succeeds as well. -/
def getWithEmpty : Get :=
  ⟨fun key =>
    if key = [107] then ([118], none)
    else if key = [] then ([120], none)
    else ([], some ErrNotFound)⟩

/-- A `NewIterator` whose iterators are all in the error state. -/
def brokenNewIterator : NewIterator := ⟨fun _ => ⟨some (Error.other 1), []⟩⟩

/-- Helpers whose probe keys are listed position by position. -/
def tableHelpers (probes : List Bytes) : Helpers :=
  { inexact := fun _ i => probes.getD i []
    BytesAfter := fun k => k ++ [0]
    DoIteratorTesting := fun kv it => decide (it.items = kv.entries) }

/-- A `Get` over a dataset that answers a present key with its value and an absent key
with an empty value and no error, where `ErrNotFound` is due. -/
def getNeverMisses (kv : KeyValue) : Get :=
  ⟨fun key =>
    match kv.entries.find? (fun e => decide (e.1 = key)) with
    | some e => (e.2, none)
    | none => ([], none)⟩

/-- A candidate whose only capability is `Get`, over a dataset. -/
def getOnlyStore (tag : Nat) (kv : KeyValue) : Store :=
  ⟨tag, none, some (refGet kv), none, none⟩

/-- A setup collaborator that builds the reference candidate and records its call. -/
def refSetup (tag : Nat) (kv : KeyValue) : Outcome DB :=
  ⟨some (some (refStore tag kv)), [Event.setup kv], 0⟩

/-- A teardown collaborator that records the candidate it is given. -/
def refTeardown (p : DB) : Outcome Unit :=
  emit (Event.teardown (p.map Store.tag))

/-- A call of the setup or of the teardown collaborator among the events. -/
def Event.isLifecycle : Event → Bool
  | Event.setup _ => true
  | Event.teardown _ => true
  | _ => false

/-- Sampler draws for a three-entry dataset. -/
def threeDraws : Draws :=
  { find := [2, 0, 1]
    get := [1, 2, 0]
    has := [2, 1, 0]
    indices := [1, 2, 0]
    pairs := [(0, 2), (1, 3), (2, 2)] }

/-! ## General facts about runs -/

/-- A run is sound when it is stopped only on a failed expectation. -/
def Outcome.Sound {α : Type} (m : Outcome α) : Prop := m.val = none → m.failures ≠ 0

theorem bind_eq_andThen {α β : Type} (m : Outcome α) (f : α → Outcome β) :
    (m >>= f) = Outcome.andThen m f := rfl

theorem pure_eq_ret {α : Type} (a : α) : (pure a : Outcome α) = Outcome.ret a := rfl

theorem forEach_failures {ι : Type} (fn : ι → Outcome Unit) (l : List ι)
    (hs : ∀ i ∈ l, (fn i).Sound) :
    (forEach l fn).failures = 0 ↔ ∀ i ∈ l, (fn i).failures = 0 := by
  induction l with
  | nil => simp [forEach, Outcome.ret]
  | cons a rest ih =>
    have hr : ∀ i ∈ rest, (fn i).Sound := fun i hi => hs i (List.mem_cons_of_mem a hi)
    have ha : (fn a).Sound := hs a (List.mem_cons_self a rest)
    cases hv : (fn a).val with
    | none =>
      have := ha hv
      simp [forEach, Outcome.andThen, hv, this]
    | some u =>
      simp [forEach, Outcome.andThen, hv, ih hr]

theorem forEach_sound {ι : Type} (fn : ι → Outcome Unit) (l : List ι)
    (hs : ∀ i ∈ l, (fn i).Sound) : (forEach l fn).Sound := by
  induction l with
  | nil => simp [forEach, Outcome.ret, Outcome.Sound]
  | cons a rest ih =>
    have hr : ∀ i ∈ rest, (fn i).Sound := fun i hi => hs i (List.mem_cons_of_mem a hi)
    have ha : (fn a).Sound := hs a (List.mem_cons_self a rest)
    cases hv : (fn a).val with
    | none =>
      have := ha hv
      simp [forEach, Outcome.andThen, hv, Outcome.Sound, this]
    | some u =>
      have := ih hr
      simp only [Outcome.Sound] at this ⊢
      simp [forEach, Outcome.andThen, hv]
      intro h1 h2
      exact this h1

theorem forEach_complete {ι : Type} (fn : ι → Outcome Unit) (l : List ι)
    (hc : ∀ i ∈ l, (fn i).val = some ()) :
    (forEach l fn).val = some () ∧ (forEach l fn).log = l.flatMap (fun i => (fn i).log) := by
  induction l with
  | nil => simp [forEach, Outcome.ret]
  | cons a rest ih =>
    have hr : ∀ i ∈ rest, (fn i).val = some () := fun i hi => hc i (List.mem_cons_of_mem a hi)
    have ha := hc a (List.mem_cons_self a rest)
    simp [forEach, Outcome.andThen, ha, ih hr]

/-! ## The callbacks of the four lookup checks -/

theorem should_failures {α : Type} (h : FailHandler) (a : α) (p : α → Bool) :
    (Should h a p).failures = 0 ↔ p a = true := by
  cases hp : p a <;> simp [Should, Outcome.ret, hp]

theorem should_sound {α : Type} (h : FailHandler) (a : α) (p : α → Bool) :
    (Should h a p).Sound := by
  cases hp : p a <;> simp [Should, Outcome.ret, Outcome.Sound, hp]

theorem should_val_log {α : Type} (h : FailHandler) (a : α) (p : α → Bool)
    (hc : h = FailHandler.resume ∨ p a = true) :
    (Should h a p).val = some () ∧ (Should h a p).log = [] := by
  cases hp : p a <;> cases h <;> simp_all [Should, Outcome.ret]

theorem andThen_should_failures {α β : Type} (h : FailHandler) (a : α) (p : α → Bool)
    (k : Unit → Outcome β) :
    (Outcome.andThen (Should h a p) k).failures = 0 ↔ p a = true ∧ (k ()).failures = 0 := by
  cases hp : p a <;> cases h <;> simp [Should, Outcome.ret, Outcome.andThen, hp]

theorem andThen_should_sound {α β : Type} (h : FailHandler) (a : α) (p : α → Bool)
    (k : Unit → Outcome β) (hk : (k ()).Sound) :
    (Outcome.andThen (Should h a p) k).Sound := by
  simp only [Outcome.Sound] at hk ⊢
  cases hp : p a <;> cases h <;> simp [Should, Outcome.ret, Outcome.andThen, hp]
  all_goals exact hk

theorem andThen_should_val_log {α β : Type} (h : FailHandler) (a : α) (p : α → Bool)
    (k : Unit → Outcome β) (hc : h = FailHandler.resume ∨ p a = true) :
    (Outcome.andThen (Should h a p) k).val = (k ()).val ∧
    (Outcome.andThen (Should h a p) k).log = (k ()).log := by
  cases hp : p a <;> cases h <;> simp_all [Should, Outcome.ret, Outcome.andThen]

theorem andThen_callFind {β : Type} (db : Find) (key : Bytes)
    (k : Bytes × Bytes × Option Error → Outcome β) :
    Outcome.andThen (callFind db key) k =
      ⟨(k (db.TestFind key)).val, Event.find key :: (k (db.TestFind key)).log,
        (k (db.TestFind key)).failures⟩ := by
  simp [callFind, Outcome.andThen]

theorem findAt_failures (h : FailHandler) (H : Helpers) (db : Find) (kv : KeyValue) (i : Nat) :
    (findAt h H db kv i).failures = 0 ↔
      db.TestFind (kv.Index i).1 = ((kv.Index i).1, (kv.Index i).2, none) ∧
      db.TestFind (H.inexact kv i) = ((kv.Index i).1, (kv.Index i).2, none) := by
  rcases hx : db.TestFind (kv.Index i).1 with ⟨k1, v1, e1⟩
  rcases hy : db.TestFind (H.inexact kv i) with ⟨k2, v2, e2⟩
  simp only [findAt, KeyValue.IndexInexact, bind_eq_andThen, andThen_callFind, hx, hy,
    ShouldNot, andThen_should_failures, should_failures]
  simp [HaveOccurred, Equal]
  tauto

theorem andThen_resume_val {α β : Type} (a : α) (p : α → Bool) (k : Unit → Outcome β) :
    (Outcome.andThen (Should FailHandler.resume a p) k).val = (k ()).val :=
  (andThen_should_val_log FailHandler.resume a p k (Or.inl rfl)).1

theorem andThen_resume_log {α β : Type} (a : α) (p : α → Bool) (k : Unit → Outcome β) :
    (Outcome.andThen (Should FailHandler.resume a p) k).log = (k ()).log :=
  (andThen_should_val_log FailHandler.resume a p k (Or.inl rfl)).2

theorem resume_val {α : Type} (a : α) (p : α → Bool) :
    (Should FailHandler.resume a p).val = some () :=
  (should_val_log FailHandler.resume a p (Or.inl rfl)).1

theorem resume_log {α : Type} (a : α) (p : α → Bool) :
    (Should FailHandler.resume a p).log = [] :=
  (should_val_log FailHandler.resume a p (Or.inl rfl)).2

theorem findAt_sound (h : FailHandler) (H : Helpers) (db : Find) (kv : KeyValue) (i : Nat) :
    (findAt h H db kv i).Sound := by
  rcases hx : db.TestFind (kv.Index i).1 with ⟨k1, v1, e1⟩
  rcases hy : db.TestFind (H.inexact kv i) with ⟨k2, v2, e2⟩
  simp only [findAt, KeyValue.IndexInexact, bind_eq_andThen, andThen_callFind, hx, hy, ShouldNot]
  show Outcome.Sound (Outcome.andThen _ _)
  refine andThen_should_sound _ _ _ _ ?_
  refine andThen_should_sound _ _ _ _ ?_
  refine andThen_should_sound _ _ _ _ ?_
  show Outcome.Sound (Outcome.andThen _ _)
  refine andThen_should_sound _ _ _ _ ?_
  refine andThen_should_sound _ _ _ _ ?_
  exact should_sound _ _ _

theorem findAt_complete (h : FailHandler) (H : Helpers) (db : Find) (kv : KeyValue) (i : Nat)
    (hc : h = FailHandler.resume ∨ (findAt h H db kv i).failures = 0) :
    (findAt h H db kv i).val = some () ∧
    (findAt h H db kv i).log = [Event.find (kv.Index i).1, Event.find (H.inexact kv i)] := by
  rcases hc with hc | hc
  · subst hc
    rcases hx : db.TestFind (kv.Index i).1 with ⟨k1, v1, e1⟩
    rcases hy : db.TestFind (H.inexact kv i) with ⟨k2, v2, e2⟩
    simp only [findAt, KeyValue.IndexInexact, bind_eq_andThen, andThen_callFind, hx, hy,
      ShouldNot, andThen_resume_val, andThen_resume_log, resume_val, resume_log]
    simp
  · have hf := (findAt_failures h H db kv i).1 hc
    simp [findAt, KeyValue.IndexInexact, bind_eq_andThen, callFind, Outcome.andThen, hf.1, hf.2,
      ShouldNot, Should, HaveOccurred, Equal, Outcome.ret]

theorem andThen_callGet {β : Type} (db : Get) (key : Bytes)
    (k : Bytes × Option Error → Outcome β) :
    Outcome.andThen (callGet db key) k =
      ⟨(k (db.TestGet key)).val, Event.get key :: (k (db.TestGet key)).log,
        (k (db.TestGet key)).failures⟩ := by
  simp [callGet, Outcome.andThen]

theorem andThen_callHas {β : Type} (db : Has) (key : Bytes)
    (k : Bool × Option Error → Outcome β) :
    Outcome.andThen (callHas db key) k =
      ⟨(k (db.TestHas key)).val, Event.has key :: (k (db.TestHas key)).log,
        (k (db.TestHas key)).failures⟩ := by
  simp [callHas, Outcome.andThen]

theorem getAt_failures (h : FailHandler) (H : Helpers) (db : Get) (kv : KeyValue) (i : Nat) :
    (getAt h H db kv i).failures = 0 ↔
      db.TestGet (kv.Index i).1 = ((kv.Index i).2, none) ∧
      (H.inexact kv i ≠ [] → (db.TestGet (H.inexact kv i)).2 = some ErrNotFound) := by
  rcases hx : db.TestGet (kv.Index i).1 with ⟨v1, e1⟩
  rcases hy : db.TestGet (H.inexact kv i) with ⟨v2, e2⟩
  by_cases hp : H.inexact kv i = []
  · simp only [getAt, KeyValue.IndexInexact, bind_eq_andThen, andThen_callGet, hx, ShouldNot,
      andThen_should_failures, hp]
    simp [HaveOccurred, Equal, pure_eq_ret, Outcome.ret]
    tauto
  · have hl : (H.inexact kv i).length > 0 := List.length_pos.mpr hp
    simp only [getAt, KeyValue.IndexInexact, bind_eq_andThen, andThen_callGet, hx, hy, ShouldNot,
      andThen_should_failures, should_failures, hl, if_true]
    simp [HaveOccurred, Equal, hp]
    constructor
    · rintro ⟨a, b, _, d⟩
      exact ⟨⟨b, a⟩, d⟩
    · rintro ⟨⟨a, b⟩, d⟩
      exact ⟨b, a, by simp [d], d⟩

theorem getAt_sound (h : FailHandler) (H : Helpers) (db : Get) (kv : KeyValue) (i : Nat) :
    (getAt h H db kv i).Sound := by
  rcases hx : db.TestGet (kv.Index i).1 with ⟨v1, e1⟩
  rcases hy : db.TestGet (H.inexact kv i) with ⟨v2, e2⟩
  by_cases hp : H.inexact kv i = []
  · simp only [getAt, KeyValue.IndexInexact, bind_eq_andThen, andThen_callGet, hx, ShouldNot, hp]
    show Outcome.Sound (Outcome.andThen _ _)
    refine andThen_should_sound _ _ _ _ ?_
    refine andThen_should_sound _ _ _ _ ?_
    simp [Outcome.Sound, pure_eq_ret, Outcome.ret]
  · have hl : (H.inexact kv i).length > 0 := List.length_pos.mpr hp
    simp only [getAt, KeyValue.IndexInexact, bind_eq_andThen, andThen_callGet, hx, hy, ShouldNot,
      hl, if_true]
    show Outcome.Sound (Outcome.andThen _ _)
    refine andThen_should_sound _ _ _ _ ?_
    refine andThen_should_sound _ _ _ _ ?_
    show Outcome.Sound (Outcome.andThen _ _)
    refine andThen_should_sound _ _ _ _ ?_
    exact should_sound _ _ _

theorem getAt_complete (h : FailHandler) (H : Helpers) (db : Get) (kv : KeyValue) (i : Nat)
    (hc : h = FailHandler.resume ∨ (getAt h H db kv i).failures = 0) :
    (getAt h H db kv i).val = some () ∧
    (getAt h H db kv i).log =
      if H.inexact kv i = [] then [Event.get (kv.Index i).1]
      else [Event.get (kv.Index i).1, Event.get (H.inexact kv i)] := by
  rcases hx : db.TestGet (kv.Index i).1 with ⟨v1, e1⟩
  rcases hy : db.TestGet (H.inexact kv i) with ⟨v2, e2⟩
  by_cases hp : H.inexact kv i = []
  · rcases hc with hc | hc
    · subst hc
      simp only [getAt, KeyValue.IndexInexact, bind_eq_andThen, andThen_callGet, hx,
        ShouldNot, andThen_resume_val, andThen_resume_log, hp]
      simp [pure_eq_ret, Outcome.ret]
    · have hf := (getAt_failures h H db kv i).1 hc
      simp [getAt, KeyValue.IndexInexact, bind_eq_andThen, callGet, Outcome.andThen, hf.1, hp,
        ShouldNot, Should, HaveOccurred, Equal, Outcome.ret, pure_eq_ret]
  · have hl : (H.inexact kv i).length > 0 := List.length_pos.mpr hp
    rcases hc with hc | hc
    · subst hc
      simp only [getAt, KeyValue.IndexInexact, bind_eq_andThen, andThen_callGet, hx, hy,
        ShouldNot, andThen_resume_val, andThen_resume_log, resume_val, resume_log, hl, if_true]
      simp [hp]
    · have hf := (getAt_failures h H db kv i).1 hc
      have h2 := hf.2 hp
      rw [hy] at h2
      simp only at h2
      simp [getAt, KeyValue.IndexInexact, bind_eq_andThen, callGet, Outcome.andThen, hf.1, hp, hy,
        h2, hl, ShouldNot, Should, HaveOccurred, Equal, Outcome.ret, pure_eq_ret]

theorem hasAt_failures (h : FailHandler) (H : Helpers) (db : Has) (kv : KeyValue) (i : Nat) :
    (hasAt h H db kv i).failures = 0 ↔
      db.TestHas (kv.Index i).1 = (true, none) ∧
      (H.inexact kv i ≠ [] → db.TestHas (H.inexact kv i) = (false, none)) := by
  rcases hx : db.TestHas (kv.Index i).1 with ⟨b1, e1⟩
  rcases hy : db.TestHas (H.inexact kv i) with ⟨b2, e2⟩
  by_cases hp : H.inexact kv i = []
  · simp only [hasAt, KeyValue.IndexInexact, bind_eq_andThen, andThen_callHas, hx, ShouldNot,
      andThen_should_failures, hp]
    simp [HaveOccurred, BeTrue, pure_eq_ret, Outcome.ret]
    tauto
  · have hl : (H.inexact kv i).length > 0 := List.length_pos.mpr hp
    simp only [hasAt, KeyValue.IndexInexact, bind_eq_andThen, andThen_callHas, hx, hy, ShouldNot,
      andThen_should_failures, should_failures, hl, if_true]
    simp [HaveOccurred, BeTrue, hp]
    tauto

theorem hasAt_sound (h : FailHandler) (H : Helpers) (db : Has) (kv : KeyValue) (i : Nat) :
    (hasAt h H db kv i).Sound := by
  rcases hx : db.TestHas (kv.Index i).1 with ⟨b1, e1⟩
  rcases hy : db.TestHas (H.inexact kv i) with ⟨b2, e2⟩
  by_cases hp : H.inexact kv i = []
  · simp only [hasAt, KeyValue.IndexInexact, bind_eq_andThen, andThen_callHas, hx, ShouldNot, hp]
    show Outcome.Sound (Outcome.andThen _ _)
    refine andThen_should_sound _ _ _ _ ?_
    refine andThen_should_sound _ _ _ _ ?_
    simp [Outcome.Sound, pure_eq_ret, Outcome.ret]
  · have hl : (H.inexact kv i).length > 0 := List.length_pos.mpr hp
    simp only [hasAt, KeyValue.IndexInexact, bind_eq_andThen, andThen_callHas, hx, hy, ShouldNot,
      hl, if_true]
    show Outcome.Sound (Outcome.andThen _ _)
    refine andThen_should_sound _ _ _ _ ?_
    refine andThen_should_sound _ _ _ _ ?_
    show Outcome.Sound (Outcome.andThen _ _)
    refine andThen_should_sound _ _ _ _ ?_
    exact should_sound _ _ _

theorem hasAt_complete (h : FailHandler) (H : Helpers) (db : Has) (kv : KeyValue) (i : Nat)
    (hc : h = FailHandler.resume ∨ (hasAt h H db kv i).failures = 0) :
    (hasAt h H db kv i).val = some () ∧
    (hasAt h H db kv i).log =
      if H.inexact kv i = [] then [Event.has (kv.Index i).1]
      else [Event.has (kv.Index i).1, Event.has (H.inexact kv i)] := by
  rcases hx : db.TestHas (kv.Index i).1 with ⟨b1, e1⟩
  rcases hy : db.TestHas (H.inexact kv i) with ⟨b2, e2⟩
  by_cases hp : H.inexact kv i = []
  · rcases hc with hc | hc
    · subst hc
      simp only [hasAt, KeyValue.IndexInexact, bind_eq_andThen, andThen_callHas, hx,
        ShouldNot, andThen_resume_val, andThen_resume_log, hp]
      simp [pure_eq_ret, Outcome.ret]
    · have hf := (hasAt_failures h H db kv i).1 hc
      simp [hasAt, KeyValue.IndexInexact, bind_eq_andThen, callHas, Outcome.andThen, hf.1, hp,
        ShouldNot, Should, HaveOccurred, BeTrue, Outcome.ret, pure_eq_ret]
  · have hl : (H.inexact kv i).length > 0 := List.length_pos.mpr hp
    rcases hc with hc | hc
    · subst hc
      simp only [hasAt, KeyValue.IndexInexact, bind_eq_andThen, andThen_callHas, hx, hy,
        ShouldNot, andThen_resume_val, andThen_resume_log, resume_val, resume_log, hl, if_true]
      simp [hp]
    · have hf := (hasAt_failures h H db kv i).1 hc
      have h2 := hf.2 hp
      simp [hasAt, KeyValue.IndexInexact, bind_eq_andThen, callHas, Outcome.andThen, hf.1, hp,
        h2, hl, ShouldNot, Should, HaveOccurred, BeTrue, Outcome.ret, pure_eq_ret]

/-! ## The checks over a whole dataset -/

theorem shuffled_failures (order : List Nat) (n round : Nat) (fn : Nat → Outcome Unit)
    (hs : ∀ i ∈ order, (fn i).Sound) :
    (ShuffledIndex order n round fn).failures = 0 ↔ ∀ i ∈ order, (fn i).failures = 0 := by
  rw [← forEach_failures fn order hs]
  simp [ShuffledIndex, emit, Outcome.andThen]

theorem shuffled_log (order : List Nat) (n round : Nat) (fn : Nat → Outcome Unit)
    (hc : ∀ i ∈ order, (fn i).val = some ()) :
    (ShuffledIndex order n round fn).val = some () ∧
    (ShuffledIndex order n round fn).log =
      Event.shuffledIndex n round :: order.flatMap (fun i => (fn i).log) := by
  have := forEach_complete fn order hc
  simp [ShuffledIndex, emit, Outcome.andThen, this]

theorem mem_order_iff {order : List Nat} {n : Nat} (hp : order.Perm (List.range n)) (i : Nat) :
    i ∈ order ↔ i < n := by
  rw [hp.mem_iff, List.mem_range]

theorem andThen_ret_log {α β : Type} (m : Outcome α) (f : α → Outcome β) (a : α)
    (hv : m.val = some a) : (Outcome.andThen m f).log = m.log ++ (f a).log := by
  simp [Outcome.andThen, hv]

theorem should_log {α : Type} (h : FailHandler) (a : α) (p : α → Bool) :
    (Should h a p).log = [] := by
  cases hp : p a <;> simp [Should, Outcome.ret, hp]

theorem andThen_should_log_nil {α β : Type} (h : FailHandler) (a : α) (p : α → Bool)
    (k : Unit → Outcome β) (hk : (k ()).log = []) :
    (Outcome.andThen (Should h a p) k).log = [] := by
  cases hp : p a <;> cases h <;> simp [Should, Outcome.ret, Outcome.andThen, hp, hk]

theorem findAfterLast_spec (h : FailHandler) (H : Helpers) (db : Find) (kv : KeyValue) :
    (TestFindAfterLast h H db kv).log =
        [Event.find (if kv.Len > 0 then H.BytesAfter (kv.Index (kv.Len - 1)).1 else [])] ∧
    ((TestFindAfterLast h H db kv).failures = 0 ↔
        (db.TestFind (if kv.Len > 0 then H.BytesAfter (kv.Index (kv.Len - 1)).1 else [])).2.2 =
          some ErrNotFound) := by
  simp only [TestFindAfterLast]
  generalize (if kv.Len > 0 then H.BytesAfter (kv.Index (kv.Len - 1)).1 else []) = key
  rcases hx : db.TestFind key with ⟨k1, v1, e1⟩
  simp only [bind_eq_andThen, andThen_callFind, hx, andThen_should_failures, should_failures]
  constructor
  · rw [andThen_should_log_nil _ _ _ _ (should_log _ _ _)]
  · cases e1 <;> simp [HaveOccurred, Equal]

/-! ## The iterator oracle and the two sampled passes -/

theorem TestIter_cases (h : FailHandler) (H : Helpers) (db : NewIterator) (r : Option Range)
    (kv : KeyValue) :
    (TestIter h H db r kv = ⟨some (), [Event.testIter r kv, Event.newIterator r, Event.release],
        (if (db.TestNewIterator r).Error.isSome then 1 else 0) +
        (if H.DoIteratorTesting kv (db.TestNewIterator r) then 0 else 1)⟩ ∧
      (h = FailHandler.resume ∨ (TestIter h H db r kv).failures = 0)) ∨
    (h = FailHandler.halt ∧ (TestIter h H db r kv).val = none ∧
      (TestIter h H db r kv).failures = 1 ∧
      (TestIter h H db r kv).log = [Event.testIter r kv, Event.newIterator r]) := by
  cases h <;> cases he : (db.TestNewIterator r).Error <;>
    cases hd : H.DoIteratorTesting kv (db.TestNewIterator r) <;>
    simp [TestIter, bind_eq_andThen, emit, callNewIterator, Outcome.andThen, Should, ShouldNot,
      HaveOccurred, Outcome.ret, he, hd]

theorem TestIter_failures (h : FailHandler) (H : Helpers) (db : NewIterator)
    (r : Option Range) (kv : KeyValue) :
    (TestIter h H db r kv).failures = 0 ↔
      (db.TestNewIterator r).Error = none ∧
      H.DoIteratorTesting kv (db.TestNewIterator r) = true := by
  cases h <;> cases he : (db.TestNewIterator r).Error <;>
    cases hd : H.DoIteratorTesting kv (db.TestNewIterator r) <;>
    simp [TestIter, bind_eq_andThen, emit, callNewIterator, Outcome.andThen, Should, ShouldNot,
      HaveOccurred, Outcome.ret, he, hd]

theorem TestIter_sound (h : FailHandler) (H : Helpers) (db : NewIterator) (r : Option Range)
    (kv : KeyValue) : (TestIter h H db r kv).Sound := by
  rcases TestIter_cases h H db r kv with ⟨he, _⟩ | ⟨_, _, hf, _⟩
  · simp [Outcome.Sound, he]
  · simp [Outcome.Sound, hf]

theorem TestIter_complete (h : FailHandler) (H : Helpers) (db : NewIterator) (r : Option Range)
    (kv : KeyValue) (hc : h = FailHandler.resume ∨ (TestIter h H db r kv).failures = 0) :
    (TestIter h H db r kv).val = some () ∧
    (TestIter h H db r kv).log = [Event.testIter r kv, Event.newIterator r, Event.release] := by
  rcases TestIter_cases h H db r kv with ⟨he, _⟩ | ⟨hh, _, hf, _⟩
  · simp [he]
  · rcases hc with hc | hc
    · simp [hh] at hc
    · simp [hf] at hc

theorem TestIter_invocations (h : FailHandler) (H : Helpers) (db : NewIterator)
    (r : Option Range) (kv : KeyValue) :
    (TestIter h H db r kv).log.filter Event.isTestIter = [Event.testIter r kv] ∧
    (TestIter h H db r kv).log.filter Event.isRequest = [] ∧
    (TestIter h H db r kv).log.head? = some (Event.testIter r kv) := by
  rcases TestIter_cases h H db r kv with ⟨he, _⟩ | ⟨_, _, _, hl⟩
  · simp [he, Event.isTestIter, Event.isRequest]
  · simp [hl, Event.isTestIter, Event.isRequest]

theorem forEach_filter_take {ι : Type} (q : Event → Bool) (g : ι → List Event)
    (fn : ι → Outcome Unit) (l : List ι) (hq : ∀ i ∈ l, (fn i).log.filter q = g i) :
    ∃ k, k ≤ l.length ∧ (forEach l fn).log.filter q = (l.take k).flatMap g ∧
      ((forEach l fn).val = some () → k = l.length) := by
  induction l with
  | nil => exact ⟨0, by simp [forEach, Outcome.ret]⟩
  | cons a rest ih =>
    have hr : ∀ i ∈ rest, (fn i).log.filter q = g i :=
      fun i hi => hq i (List.mem_cons_of_mem a hi)
    have ha := hq a (List.mem_cons_self a rest)
    obtain ⟨k, hk, hlog, hval⟩ := ih hr
    cases hv : (fn a).val with
    | none =>
      refine ⟨1, by simp, ?_, ?_⟩
      · simp [forEach, Outcome.andThen, hv, ha]
      · simp [forEach, Outcome.andThen, hv]
    | some u =>
      refine ⟨k + 1, by simpa using hk, ?_, ?_⟩
      · simp [forEach, Outcome.andThen, hv, ha, hlog]
      · intro hsome
        have : (forEach rest fn).val = some () := by
          simpa [forEach, Outcome.andThen, hv] using hsome
        simp [hval this]

theorem forEach_filter_nil {ι : Type} (q : Event → Bool) (fn : ι → Outcome Unit) (l : List ι)
    (hq : ∀ i ∈ l, (fn i).log.filter q = []) : (forEach l fn).log.filter q = [] := by
  obtain ⟨k, _, hlog, _⟩ := forEach_filter_take q (fun _ => []) fn l hq
  rw [hlog]
  induction (List.take k l) with
  | nil => rfl
  | cons a rest ih => simp [List.flatMap_cons]

theorem indexAt_eq (h : FailHandler) (H : Helpers) (db : NewIterator) (kv : KeyValue) (i : Nat) :
    indexAt h H db kv i =
      Outcome.andThen
        (TestIter h H db (some ⟨some (kv.IndexInexact H i).1, none⟩) (kv.Slice i kv.Len))
        (fun _ => TestIter h H db (some ⟨none, some (kv.IndexInexact H i).1⟩) (kv.Slice 0 i)) := by
  have eta : ∀ m : Outcome Unit, Outcome.andThen m (fun _ => Outcome.ret ()) = m := by
    intro m
    rcases m with ⟨v, l, n⟩
    cases v <;> simp [Outcome.andThen, Outcome.ret]
  simp [indexAt, forEach, KeyValue.IndexInexact, eta]

theorem indexAt_requests (h : FailHandler) (H : Helpers) (db : NewIterator) (kv : KeyValue)
    (i : Nat) : (indexAt h H db kv i).log.filter Event.isRequest = [] := by
  unfold indexAt
  exact forEach_filter_nil _ _ _ (fun x _ => (TestIter_invocations h H db _ _).2.1)

theorem slice_split (kv : KeyValue) (i : Nat) :
    (kv.Slice 0 i).entries ++ (kv.Slice i kv.Len).entries = kv.entries := by
  simp [KeyValue.Slice, KeyValue.Len, List.take_of_length_le]

theorem Min_eq_min (x y : Nat) : Min x y = min x y := by
  unfold Min
  split <;> omega

theorem getAt_log_of_empty (h : FailHandler) (H : Helpers) (db : Get) (kv : KeyValue) (i : Nat)
    (hp : H.inexact kv i = []) : (getAt h H db kv i).log = [Event.get (kv.Index i).1] := by
  rcases hx : db.TestGet (kv.Index i).1 with ⟨v1, e1⟩
  simp only [getAt, KeyValue.IndexInexact, bind_eq_andThen, andThen_callGet, hx, ShouldNot, hp]
  rw [andThen_should_log_nil _ _ _ _ (andThen_should_log_nil _ _ _ _ (by simp [pure_eq_ret, Outcome.ret]))]

theorem hasAt_log_of_empty (h : FailHandler) (H : Helpers) (db : Has) (kv : KeyValue) (i : Nat)
    (hp : H.inexact kv i = []) : (hasAt h H db kv i).log = [Event.has (kv.Index i).1] := by
  rcases hx : db.TestHas (kv.Index i).1 with ⟨v1, e1⟩
  simp only [hasAt, KeyValue.IndexInexact, bind_eq_andThen, andThen_callHas, hx, ShouldNot, hp]
  rw [andThen_should_log_nil _ _ _ _ (andThen_should_log_nil _ _ _ _ (by simp [pure_eq_ret, Outcome.ret]))]

theorem shuffled_complete (h : FailHandler) (order : List Nat) (n round : Nat)
    (fn : Nat → Outcome Unit) (hs : ∀ i ∈ order, (fn i).Sound)
    (hb : ∀ i, (h = FailHandler.resume ∨ (fn i).failures = 0) → (fn i).val = some ())
    (hc : h = FailHandler.resume ∨ (ShuffledIndex order n round fn).failures = 0) :
    (ShuffledIndex order n round fn).log =
      Event.shuffledIndex n round :: order.flatMap (fun i => (fn i).log) := by
  refine (shuffled_log order n round fn ?_).2
  intro i hi
  rcases hc with hc | hc
  · exact hb i (Or.inl hc)
  · exact hb i (Or.inr ((shuffled_failures order n round fn hs).1 hc i hi))

theorem indexAt_sound (h : FailHandler) (H : Helpers) (db : NewIterator) (kv : KeyValue)
    (i : Nat) : (indexAt h H db kv i).Sound := by
  unfold indexAt
  exact forEach_sound _ _ (fun x _ => TestIter_sound h H db _ _)

theorem indexAt_failures (h : FailHandler) (H : Helpers) (db : NewIterator) (kv : KeyValue)
    (i : Nat) :
    (indexAt h H db kv i).failures = 0 ↔
      (TestIter h H db (some ⟨some (kv.IndexInexact H i).1, none⟩)
        (kv.Slice i kv.Len)).failures = 0 ∧
      (TestIter h H db (some ⟨none, some (kv.IndexInexact H i).1⟩) (kv.Slice 0 i)).failures = 0 := by
  unfold indexAt
  rw [forEach_failures _ _ (fun x _ => TestIter_sound h H db _ _)]
  simp [KeyValue.IndexInexact]

theorem indexAt_complete (h : FailHandler) (H : Helpers) (db : NewIterator) (kv : KeyValue)
    (i : Nat)
    (hc : h = FailHandler.resume ∨
      (TestIter h H db (some ⟨some (kv.IndexInexact H i).1, none⟩)
        (kv.Slice i kv.Len)).failures = 0) :
    (indexAt h H db kv i).log.filter Event.isTestIter =
      [Event.testIter (some ⟨some (kv.IndexInexact H i).1, none⟩) (kv.Slice i kv.Len),
        Event.testIter (some ⟨none, some (kv.IndexInexact H i).1⟩) (kv.Slice 0 i)] := by
  rw [indexAt_eq]
  have h1 := TestIter_complete h H db (some ⟨some (kv.IndexInexact H i).1, none⟩)
    (kv.Slice i kv.Len) hc
  rw [andThen_ret_log _ _ () h1.1, List.filter_append,
    (TestIter_invocations h H db _ _).1, (TestIter_invocations h H db _ _).1]
  rfl

theorem indexAt_val (h : FailHandler) (H : Helpers) (db : NewIterator) (kv : KeyValue)
    (i : Nat) (hc : h = FailHandler.resume ∨ (indexAt h H db kv i).failures = 0) :
    (indexAt h H db kv i).val = some () := by
  have h12 : (h = FailHandler.resume ∨
      (TestIter h H db (some ⟨some (kv.IndexInexact H i).1, none⟩)
        (kv.Slice i kv.Len)).failures = 0) ∧
      (h = FailHandler.resume ∨
      (TestIter h H db (some ⟨none, some (kv.IndexInexact H i).1⟩) (kv.Slice 0 i)).failures = 0) := by
    rcases hc with hc | hc
    · exact ⟨Or.inl hc, Or.inl hc⟩
    · have := (indexAt_failures h H db kv i).1 hc
      exact ⟨Or.inr this.1, Or.inr this.2⟩
  rw [indexAt_eq]
  have h1 := TestIter_complete h H db _ _ h12.1
  have h2 := TestIter_complete h H db _ _ h12.2
  simp [Outcome.andThen, h1.1, h2.1]

theorem random_index_log (indices : List Nat) (n round : Nat) (fn : Nat → Outcome Unit) :
    (RandomIndex indices n round fn).log = Event.randomIndex n round :: (forEach indices fn).log ∧
    (RandomIndex indices n round fn).failures = (forEach indices fn).failures ∧
    (RandomIndex indices n round fn).val = (forEach indices fn).val := by
  simp [RandomIndex, emit, Outcome.andThen]

theorem random_range_log (pairs : List (Nat × Nat)) (n round : Nat)
    (fn : Nat → Nat → Outcome Unit) :
    (RandomRange pairs n round fn).log =
      Event.randomRange n round :: (forEach pairs (fun x => fn x.1 x.2)).log ∧
    (RandomRange pairs n round fn).failures = (forEach pairs (fun x => fn x.1 x.2)).failures ∧
    (RandomRange pairs n round fn).val = (forEach pairs (fun x => fn x.1 x.2)).val := by
  simp [RandomRange, emit, Outcome.andThen]

theorem keys_disjoint (kv : KeyValue) (i : Nat) (hk : (kv.entries.map Prod.fst).Nodup) :
    List.Disjoint ((kv.Slice 0 i).entries.map Prod.fst)
      ((kv.Slice i kv.Len).entries.map Prod.fst) := by
  have h1 : (kv.Slice 0 i).entries.map Prod.fst = (kv.entries.map Prod.fst).take i := by
    simp [KeyValue.Slice, List.map_take]
  have h2 : (kv.Slice i kv.Len).entries.map Prod.fst = (kv.entries.map Prod.fst).drop i := by
    simp [KeyValue.Slice, KeyValue.Len, List.take_of_length_le, List.map_drop]
  rw [h1, h2]
  exact List.disjoint_take_drop hk (le_refl i)

theorem indexAt_stopped (H : Helpers) (db : NewIterator) (kv : KeyValue) (i : Nat)
    (hf : (TestIter FailHandler.halt H db (some ⟨some (kv.IndexInexact H i).1, none⟩)
      (kv.Slice i kv.Len)).failures ≠ 0) :
    (indexAt FailHandler.halt H db kv i).val = none ∧
    (indexAt FailHandler.halt H db kv i).log.filter Event.isTestIter =
      [Event.testIter (some ⟨some (kv.IndexInexact H i).1, none⟩) (kv.Slice i kv.Len)] := by
  rw [indexAt_eq]
  rcases TestIter_cases FailHandler.halt H db (some ⟨some (kv.IndexInexact H i).1, none⟩)
    (kv.Slice i kv.Len) with ⟨_, hc⟩ | ⟨_, hv, _, hl⟩
  · rcases hc with hc | hc
    · cases hc
    · exact absurd hc hf
  · simp [Outcome.andThen, hv, hl, Event.isTestIter]

/-! ## The claims -/

/-- C1: `TestFind` reports no violation exactly when, for every index `i` of the dataset,
the lookup of the exact key and the lookup of the probe key both return the exact key, its
value and no error; and in a run that the fail handler does not stop (the handler only
records, or nothing was violated) the lookups made are, for each index in the order
`ShuffledIndex` visits them, the exact key and then the probe key, whatever the probe is. -/
theorem TestFind_accepts_iff (h : FailHandler) (H : Helpers) (order : List Nat) (db : Find)
    (kv : KeyValue) (hp : order.Perm (List.range kv.Len)) :
    ((TestFind h H order db kv).failures = 0 ↔
      ∀ i, i < kv.Len →
        db.TestFind (kv.IndexInexact H i).2.1 =
          ((kv.IndexInexact H i).2.1, (kv.IndexInexact H i).2.2, none) ∧
        db.TestFind (kv.IndexInexact H i).1 =
          ((kv.IndexInexact H i).2.1, (kv.IndexInexact H i).2.2, none)) ∧
    ((h = FailHandler.resume ∨ (TestFind h H order db kv).failures = 0) →
      (TestFind h H order db kv).log =
        Event.shuffledIndex kv.Len 1 ::
          order.flatMap (fun i =>
            [Event.find (kv.IndexInexact H i).2.1, Event.find (kv.IndexInexact H i).1])) := by
  have hs : ∀ i ∈ order, (findAt h H db kv i).Sound := fun i _ => findAt_sound h H db kv i
  constructor
  · unfold TestFind
    rw [shuffled_failures order kv.Len 1 _ hs]
    simp only [findAt_failures, KeyValue.IndexInexact]
    exact ⟨fun hall i hi => hall i ((mem_order_iff hp i).2 hi),
      fun hall i hi => hall i ((mem_order_iff hp i).1 hi)⟩
  · intro hc
    unfold TestFind at hc ⊢
    rw [shuffled_complete h order kv.Len 1 _ hs
      (fun i hi => (findAt_complete h H db kv i hi).1) hc]
    congr 1
    refine List.flatMap_congr ?_
    intro i hi
    have hci : h = FailHandler.resume ∨ (findAt h H db kv i).failures = 0 := by
      rcases hc with hc | hc
      · exact Or.inl hc
      · exact Or.inr ((shuffled_failures order kv.Len 1 _ hs).1 hc i hi)
    simpa [KeyValue.IndexInexact] using (findAt_complete h H db kv i hci).2

/-- Witness for C1: the reference `Find` over a three-entry dataset, visited in the order
2, 0, 1. -/
theorem TestFind_accepts_iff_witness :
    [2, 0, 1].Perm (List.range threeKeyValue.Len) ∧
    (TestFind FailHandler.halt specHelpers [2, 0, 1] (refFind threeKeyValue)
        threeKeyValue).failures = 0 ∧
    (TestFind FailHandler.halt specHelpers [2, 0, 1] (refFind threeKeyValue)
        threeKeyValue).log =
      [Event.shuffledIndex 3 1, Event.find [101], Event.find [99, 0], Event.find [97],
        Event.find [], Event.find [99], Event.find [97, 0]] :=
  ⟨by decide, by decide,
    ((TestFind_accepts_iff FailHandler.halt specHelpers [2, 0, 1] (refFind threeKeyValue)
      threeKeyValue (by decide)).2 (Or.inr (by decide))).trans (by decide)⟩

/-- C2: `TestFindAfterLast` makes exactly one lookup on the candidate, with the key
`BytesAfter(k_last)` of the last key when the dataset is not empty and with the nil key
when it is empty; it reports no violation exactly when that lookup returns an error equal
to `ErrNotFound`, so a lookup that succeeds or fails with another error is a violation. -/
theorem TestFindAfterLast_single_lookup (h : FailHandler) (H : Helpers) (db : Find)
    (kv : KeyValue) :
    (TestFindAfterLast h H db kv).log =
        [Event.find (if kv.Len > 0 then H.BytesAfter (kv.Index (kv.Len - 1)).1 else [])] ∧
    ((TestFindAfterLast h H db kv).failures = 0 ↔
        (db.TestFind (if kv.Len > 0 then H.BytesAfter (kv.Index (kv.Len - 1)).1 else [])).2.2 =
          some ErrNotFound) ∧
    ((db.TestFind (if kv.Len > 0 then H.BytesAfter (kv.Index (kv.Len - 1)).1 else [])).2.2 =
        none → (TestFindAfterLast h H db kv).failures ≠ 0) ∧
    (∀ code,
      (db.TestFind (if kv.Len > 0 then H.BytesAfter (kv.Index (kv.Len - 1)).1 else [])).2.2 =
        some (Error.other code) → (TestFindAfterLast h H db kv).failures ≠ 0) := by
  obtain ⟨hlog, hiff⟩ := findAfterLast_spec h H db kv
  refine ⟨hlog, hiff, ?_, ?_⟩
  · intro hnone hf
    rw [hiff, hnone] at hf
    exact absurd hf (by simp)
  · intro code hother hf
    rw [hiff, hother] at hf
    exact absurd hf (by simp [ErrNotFound])

/-- C3: `TestGet` reports no violation exactly when, for every index `i` of the dataset,
the lookup of the exact key returns its value and no error and, whenever the probe key is
not empty, the lookup of the probe key returns an error equal to `ErrNotFound`; at an index
whose probe key is empty the callback makes the lookup of the exact key and no other. -/
theorem TestGet_accepts_iff (h : FailHandler) (H : Helpers) (order : List Nat) (db : Get)
    (kv : KeyValue) (hp : order.Perm (List.range kv.Len)) :
    ((TestGet h H order db kv).failures = 0 ↔
      ∀ i, i < kv.Len →
        db.TestGet (kv.IndexInexact H i).2.1 = ((kv.IndexInexact H i).2.2, none) ∧
        ((kv.IndexInexact H i).1 ≠ [] →
          (db.TestGet (kv.IndexInexact H i).1).2 = some ErrNotFound)) ∧
    (∀ i, (kv.IndexInexact H i).1 = [] →
      (getAt h H db kv i).log = [Event.get (kv.IndexInexact H i).2.1]) ∧
    ((h = FailHandler.resume ∨ (TestGet h H order db kv).failures = 0) →
      (TestGet h H order db kv).log =
        Event.shuffledIndex kv.Len 1 ::
          order.flatMap (fun i =>
            if (kv.IndexInexact H i).1 = [] then [Event.get (kv.IndexInexact H i).2.1]
            else [Event.get (kv.IndexInexact H i).2.1, Event.get (kv.IndexInexact H i).1])) := by
  have hs : ∀ i ∈ order, (getAt h H db kv i).Sound := fun i _ => getAt_sound h H db kv i
  refine ⟨?_, ?_, ?_⟩
  · unfold TestGet
    rw [shuffled_failures order kv.Len 1 _ hs]
    simp only [getAt_failures, KeyValue.IndexInexact]
    exact ⟨fun hall i hi => hall i ((mem_order_iff hp i).2 hi),
      fun hall i hi => hall i ((mem_order_iff hp i).1 hi)⟩
  · intro i hi
    exact getAt_log_of_empty h H db kv i hi
  · intro hc
    unfold TestGet at hc ⊢
    rw [shuffled_complete h order kv.Len 1 _ hs
      (fun i hi => (getAt_complete h H db kv i hi).1) hc]
    congr 1
    refine List.flatMap_congr ?_
    intro i hi
    have hci : h = FailHandler.resume ∨ (getAt h H db kv i).failures = 0 := by
      rcases hc with hc | hc
      · exact Or.inl hc
      · exact Or.inr ((shuffled_failures order kv.Len 1 _ hs).1 hc i hi)
    simpa [KeyValue.IndexInexact] using (getAt_complete h H db kv i hci).2

/-- Witness for C3: the reference `Get` over a three-entry dataset, visited in the order
1, 2, 0; the probe key at index 0 is empty and is not looked up. -/
theorem TestGet_accepts_iff_witness :
    [1, 2, 0].Perm (List.range threeKeyValue.Len) ∧
    (TestGet FailHandler.halt specHelpers [1, 2, 0] (refGet threeKeyValue)
        threeKeyValue).failures = 0 ∧
    (TestGet FailHandler.halt specHelpers [1, 2, 0] (refGet threeKeyValue)
        threeKeyValue).log =
      [Event.shuffledIndex 3 1, Event.get [99], Event.get [97, 0], Event.get [101],
        Event.get [99, 0], Event.get [97]] :=
  ⟨by decide, by decide,
    ((TestGet_accepts_iff FailHandler.halt specHelpers [1, 2, 0] (refGet threeKeyValue)
      threeKeyValue (by decide)).2.2 (Or.inr (by decide))).trans (by decide)⟩

/-- C4 fails as stated: over the one-entry dataset "k" -> "v" a candidate whose lookup
of the empty key succeeds is accepted by `TestGet`, under either fail handler and whatever
probe key `IndexInexact` derives for index 0 (short of the exact key itself), and the
empty key is never looked up: an empty probe key is skipped by the guard (one lookup), a
non-empty one such as "j" is another key (two lookups). -/
theorem TestGet_empty_key_not_rejected :
    getWithEmpty.TestGet [] = ([120], none) ∧
    (∀ (h : FailHandler) (H : Helpers), H.inexact oneKeyValue 0 ≠ [107] →
      (TestGet h H [0] getWithEmpty oneKeyValue).failures = 0 ∧
      Event.get [] ∉ (TestGet h H [0] getWithEmpty oneKeyValue).log) ∧
    (TestGet FailHandler.halt (tableHelpers [[106]]) [0] getWithEmpty oneKeyValue).failures = 0 ∧
    (TestGet FailHandler.halt (tableHelpers [[106]]) [0] getWithEmpty oneKeyValue).log =
      [Event.shuffledIndex 1 1, Event.get [107], Event.get [106]] ∧
    (TestGet FailHandler.halt (tableHelpers [[]]) [0] getWithEmpty oneKeyValue).failures = 0 ∧
    (TestGet FailHandler.halt (tableHelpers [[]]) [0] getWithEmpty oneKeyValue).log =
      [Event.shuffledIndex 1 1, Event.get [107]] := by
  refine ⟨by decide, ?_, by decide, by decide, by decide, by decide⟩
  intro h H hne
  have hs : ∀ j ∈ [0], (getAt h H getWithEmpty oneKeyValue j).Sound :=
    fun j _ => getAt_sound h H getWithEmpty oneKeyValue j
  have hexact : getWithEmpty.TestGet (oneKeyValue.Index 0).1 = ((oneKeyValue.Index 0).2, none) := by
    decide
  have hprobe : H.inexact oneKeyValue 0 ≠ [] →
      (getWithEmpty.TestGet (H.inexact oneKeyValue 0)).2 = some ErrNotFound := by
    intro hp
    simp [getWithEmpty, hne, hp]
  have hbody : (getAt h H getWithEmpty oneKeyValue 0).failures = 0 :=
    (getAt_failures h H getWithEmpty oneKeyValue 0).2 ⟨hexact, hprobe⟩
  have hfail : (TestGet h H [0] getWithEmpty oneKeyValue).failures = 0 := by
    unfold TestGet
    rw [shuffled_failures [0] oneKeyValue.Len 1 _ hs]
    intro j hj
    have : j = 0 := by simpa using hj
    subst this
    exact hbody
  refine ⟨hfail, ?_⟩
  have hlog : (TestGet h H [0] getWithEmpty oneKeyValue).log =
      Event.shuffledIndex oneKeyValue.Len 1 ::
        [0].flatMap (fun j => (getAt h H getWithEmpty oneKeyValue j).log) := by
    unfold TestGet at hfail ⊢
    exact shuffled_complete h [0] oneKeyValue.Len 1 _ hs
      (fun j hj => (getAt_complete h H getWithEmpty oneKeyValue j hj).1) (Or.inr hfail)
  have hflat : [0].flatMap (fun j => (getAt h H getWithEmpty oneKeyValue j).log) =
      (getAt h H getWithEmpty oneKeyValue 0).log := by
    simp [List.flatMap_cons]
  rw [hlog, hflat, (getAt_complete h H getWithEmpty oneKeyValue 0 (Or.inr hbody)).2]
  have hk : (oneKeyValue.Index 0).1 = [107] := rfl
  by_cases hp : H.inexact oneKeyValue 0 = []
  · rw [if_pos hp, hk]
    simp
  · rw [if_neg hp, hk]
    simp only [List.mem_cons, Event.get.injEq, List.mem_singleton, List.not_mem_nil, or_false,
      not_or]
    exact ⟨by simp, by simp, fun hcon => hp hcon.symm⟩

/-- C4 as amended: for every dataset and every index whose probe key is not empty,
`TestGet` reports a violation for any candidate whose lookup of that probe key does not
fail with `ErrNotFound`; this covers every index whose probe key differs from the exact
key as soon as the probe key is empty only where the exact key is. An empty probe key is
not looked up: the callback looks up the exact key only. Over the one-entry dataset
"k" -> "v" the verdict is that of the lookup of "k" and, when the probe key is not empty,
of the probe key, so two candidates that agree on every non-empty key get the same
verdict, whatever they answer for the empty key. -/
theorem TestGet_rejects_nonempty_probe (h : FailHandler) (H : Helpers) (order : List Nat)
    (db : Get) (kv : KeyValue) (hp : order.Perm (List.range kv.Len)) (i : Nat)
    (hi : i < kv.Len) :
    ((kv.IndexInexact H i).1 ≠ [] →
      (db.TestGet (kv.IndexInexact H i).1).2 ≠ some ErrNotFound →
      (TestGet h H order db kv).failures ≠ 0) ∧
    (((kv.IndexInexact H i).1 = [] → (kv.IndexInexact H i).2.1 = []) →
      (kv.IndexInexact H i).1 ≠ (kv.IndexInexact H i).2.1 →
      (db.TestGet (kv.IndexInexact H i).1).2 ≠ some ErrNotFound →
      (TestGet h H order db kv).failures ≠ 0) ∧
    ((kv.IndexInexact H i).1 = [] →
      (getAt h H db kv i).log = [Event.get (kv.IndexInexact H i).2.1] ∧
      ((getAt h H db kv i).failures = 0 ↔
        db.TestGet (kv.IndexInexact H i).2.1 = ((kv.IndexInexact H i).2.2, none))) ∧
    ((TestGet h H [0] db oneKeyValue).failures = 0 ↔
      db.TestGet [107] = ([118], none) ∧
      (H.inexact oneKeyValue 0 ≠ [] →
        (db.TestGet (H.inexact oneKeyValue 0)).2 = some ErrNotFound)) ∧
    (∀ db2 : Get, (∀ key, key ≠ [] → db.TestGet key = db2.TestGet key) →
      ((TestGet h H [0] db oneKeyValue).failures = 0 ↔
        (TestGet h H [0] db2 oneKeyValue).failures = 0)) := by
  have hs : ∀ j ∈ order, (getAt h H db kv j).Sound := fun j _ => getAt_sound h H db kv j
  have hnonempty : (kv.IndexInexact H i).1 ≠ [] →
      (db.TestGet (kv.IndexInexact H i).1).2 ≠ some ErrNotFound →
      (TestGet h H order db kv).failures ≠ 0 := by
    intro hne hbad hf
    unfold TestGet at hf
    rw [shuffled_failures order kv.Len 1 _ hs] at hf
    have := (getAt_failures h H db kv i).1 (hf i ((mem_order_iff hp i).2 hi))
    exact hbad (this.2 hne)
  have hone : ∀ d : Get, (TestGet h H [0] d oneKeyValue).failures = 0 ↔
      d.TestGet [107] = ([118], none) ∧
      (H.inexact oneKeyValue 0 ≠ [] →
        (d.TestGet (H.inexact oneKeyValue 0)).2 = some ErrNotFound) := by
    intro d
    unfold TestGet
    rw [shuffled_failures [0] oneKeyValue.Len 1 _
      (fun j _ => getAt_sound h H d oneKeyValue j)]
    constructor
    · intro hall
      simpa [KeyValue.Index, oneKeyValue] using
        (getAt_failures h H d oneKeyValue 0).1 (hall 0 (by simp))
    · intro hd j hj
      have : j = 0 := by simpa using hj
      subst this
      exact (getAt_failures h H d oneKeyValue 0).2
        (by simpa [KeyValue.Index, oneKeyValue] using hd)
  refine ⟨hnonempty, ?_, ?_, hone db, ?_⟩
  · intro hwf hdiff hbad
    refine hnonempty ?_ hbad
    intro hempty
    exact hdiff (hempty.trans (hwf hempty).symm)
  · intro hempty
    refine ⟨getAt_log_of_empty h H db kv i hempty, ?_⟩
    rw [getAt_failures]
    simp only [KeyValue.IndexInexact] at hempty ⊢
    simp [hempty]
  · intro db2 hagree
    rw [hone db, hone db2, hagree [107] (by simp)]
    by_cases hprobe : H.inexact oneKeyValue 0 = []
    · simp [hprobe]
    · rw [hagree _ hprobe]

/-- Witness for C4 as amended: over the three-entry dataset with the probe keys "`", "b",
"d", a `Get` that answers every exact key with its value and every absent key with a value
too is rejected: its first violation is the lookup of a probe key. -/
theorem TestGet_rejects_nonempty_probe_witness :
    [0, 1, 2].Perm (List.range threeKeyValue.Len) ∧ 0 < threeKeyValue.Len ∧
    (∀ i, i < 3 →
      (getNeverMisses threeKeyValue).TestGet (threeKeyValue.Index i).1 =
        ((threeKeyValue.Index i).2, none)) ∧
    (TestGet FailHandler.halt (tableHelpers [[96], [98], [100]]) [0, 1, 2]
      (getNeverMisses threeKeyValue) threeKeyValue).log =
      [Event.shuffledIndex 3 1, Event.get [97], Event.get [96]] ∧
    (TestGet FailHandler.halt (tableHelpers [[96], [98], [100]]) [0, 1, 2]
      (getNeverMisses threeKeyValue) threeKeyValue).failures ≠ 0 :=
  ⟨by decide, by decide, by decide, by decide,
    (TestGet_rejects_nonempty_probe FailHandler.halt (tableHelpers [[96], [98], [100]])
      [0, 1, 2] (getNeverMisses threeKeyValue) threeKeyValue (by decide) 0 (by decide)).1
      (by decide) (by decide)⟩

/-- C5: `TestHas` reports no violation exactly when, for every index `i` of the dataset,
the check of the exact key returns true and no error and, whenever the probe key is not
empty, the check of the probe key returns false and no error; so a candidate that answers
a non-empty probe key with an error, `ErrNotFound` included, is reported as a violation. -/
theorem TestHas_accepts_iff (h : FailHandler) (H : Helpers) (order : List Nat) (db : Has)
    (kv : KeyValue) (hp : order.Perm (List.range kv.Len)) :
    ((TestHas h H order db kv).failures = 0 ↔
      ∀ i, i < kv.Len →
        db.TestHas (kv.IndexInexact H i).2.1 = (true, none) ∧
        ((kv.IndexInexact H i).1 ≠ [] →
          db.TestHas (kv.IndexInexact H i).1 = (false, none))) ∧
    (∀ i, i < kv.Len → (kv.IndexInexact H i).1 ≠ [] →
      (db.TestHas (kv.IndexInexact H i).1).2 ≠ none →
      (TestHas h H order db kv).failures ≠ 0) := by
  have hs : ∀ i ∈ order, (hasAt h H db kv i).Sound := fun i _ => hasAt_sound h H db kv i
  have hiff : (TestHas h H order db kv).failures = 0 ↔
      ∀ i, i < kv.Len →
        db.TestHas (kv.IndexInexact H i).2.1 = (true, none) ∧
        ((kv.IndexInexact H i).1 ≠ [] →
          db.TestHas (kv.IndexInexact H i).1 = (false, none)) := by
    unfold TestHas
    rw [shuffled_failures order kv.Len 1 _ hs]
    simp only [hasAt_failures, KeyValue.IndexInexact]
    exact ⟨fun hall i hi => hall i ((mem_order_iff hp i).2 hi),
      fun hall i hi => hall i ((mem_order_iff hp i).1 hi)⟩
  refine ⟨hiff, ?_⟩
  intro i hi hne herr hf
  have := ((hiff.1 hf) i hi).2 hne
  rw [this] at herr
  exact herr rfl

/-- Witness for C5: the reference `Has` over a three-entry dataset is accepted, and a
`Has` that answers an absent key with `ErrNotFound` is rejected. -/
theorem TestHas_accepts_iff_witness :
    [2, 1, 0].Perm (List.range threeKeyValue.Len) ∧
    (TestHas FailHandler.halt specHelpers [2, 1, 0] (refHas threeKeyValue)
        threeKeyValue).failures = 0 ∧
    (TestHas FailHandler.halt specHelpers [2, 1, 0]
        ⟨fun key => if key.length = 1 then (true, none) else (false, some ErrNotFound)⟩
        threeKeyValue).failures ≠ 0 :=
  ⟨by decide, by decide,
    (TestHas_accepts_iff FailHandler.halt specHelpers [2, 1, 0]
      ⟨fun key => if key.length = 1 then (true, none) else (false, some ErrNotFound)⟩
      threeKeyValue (by decide)).2 1 (by decide) (by decide) (by decide)⟩

/-- C6: each of the seven entries of `KeyValueTesting`, run on a candidate, does nothing
(no event, so no call on the candidate, and no violation) when the candidate lacks the
capability the entry asks for, and is exactly the corresponding check on that capability
when the candidate has it: `TestFind` and `TestFindAfterLast` on its `Find`, `TestGet` on
its `Get`, `TestHas` on its `Has`, and `TestIter`, the index pass and the range pass on
its `NewIterator`. A nil candidate has no capability. The outcome of an entry is the same
for two candidates that agree on the entry's own capability, whatever else they have. -/
theorem KeyValueTesting_entries_by_capability (h : FailHandler) (H : Helpers) (d : Draws)
    (kv : KeyValue) (p0 : DB) (setup : KeyValue → Outcome DB)
    (teardown : Option (DB → Outcome Unit)) :
    (∀ s : Store,
      (KeyValueTesting h H d kv p0 setup teardown).entries.map (fun e => e.body (some s)) =
        [ (match s.find with
            | some db => TestFind h H d.find db kv
            | none => ⟨some (), [], 0⟩),
          (match s.find with
            | some db => TestFindAfterLast h H db kv
            | none => ⟨some (), [], 0⟩),
          (match s.get with
            | some db => TestGet h H d.get db kv
            | none => ⟨some (), [], 0⟩),
          (match s.has with
            | some db => TestHas h H d.has db kv
            | none => ⟨some (), [], 0⟩),
          (match s.newIterator with
            | some db => TestIter h H db none kv.Clone
            | none => ⟨some (), [], 0⟩),
          (match s.newIterator with
            | some db => RandomIndex d.indices kv.Len (Min kv.Len 50) (indexAt h H db kv)
            | none => ⟨some (), [], 0⟩),
          (match s.newIterator with
            | some db => RandomRange d.pairs kv.Len (Min kv.Len 50) (rangeAt h H db kv)
            | none => ⟨some (), [], 0⟩) ]) ∧
    (KeyValueTesting h H d kv p0 setup teardown).entries.map (fun e => e.body none) =
      List.replicate 7 ⟨some (), [], 0⟩ ∧
    (∀ s t : Store,
      (s.find = t.find →
        ((KeyValueTesting h H d kv p0 setup teardown).entries.map
          (fun e => e.body (some s))).take 2 =
        ((KeyValueTesting h H d kv p0 setup teardown).entries.map
          (fun e => e.body (some t))).take 2) ∧
      (s.get = t.get →
        ((KeyValueTesting h H d kv p0 setup teardown).entries.map
          (fun e => e.body (some s))).get? 2 =
        ((KeyValueTesting h H d kv p0 setup teardown).entries.map
          (fun e => e.body (some t))).get? 2) ∧
      (s.has = t.has →
        ((KeyValueTesting h H d kv p0 setup teardown).entries.map
          (fun e => e.body (some s))).get? 3 =
        ((KeyValueTesting h H d kv p0 setup teardown).entries.map
          (fun e => e.body (some t))).get? 3) ∧
      (s.newIterator = t.newIterator →
        ((KeyValueTesting h H d kv p0 setup teardown).entries.map
          (fun e => e.body (some s))).drop 4 =
        ((KeyValueTesting h H d kv p0 setup teardown).entries.map
          (fun e => e.body (some t))).drop 4)) := by
  have hbodies : ∀ s : Store,
      (KeyValueTesting h H d kv p0 setup teardown).entries.map (fun e => e.body (some s)) =
        [ (match s.find with
            | some db => TestFind h H d.find db kv
            | none => ⟨some (), [], 0⟩),
          (match s.find with
            | some db => TestFindAfterLast h H db kv
            | none => ⟨some (), [], 0⟩),
          (match s.get with
            | some db => TestGet h H d.get db kv
            | none => ⟨some (), [], 0⟩),
          (match s.has with
            | some db => TestHas h H d.has db kv
            | none => ⟨some (), [], 0⟩),
          (match s.newIterator with
            | some db => TestIter h H db none kv.Clone
            | none => ⟨some (), [], 0⟩),
          (match s.newIterator with
            | some db => RandomIndex d.indices kv.Len (Min kv.Len 50) (indexAt h H db kv)
            | none => ⟨some (), [], 0⟩),
          (match s.newIterator with
            | some db => RandomRange d.pairs kv.Len (Min kv.Len 50) (rangeAt h H db kv)
            | none => ⟨some (), [], 0⟩) ] := by
    intro s
    cases hf : s.find <;> cases hg : s.get <;> cases hh : s.has <;> cases hn : s.newIterator <;>
      simp [KeyValueTesting, itFind, itFindAfterLast, itGet, itHas, itIter, itIterIndex,
        itIterRange, DB.asFind, DB.asGet, DB.asHas, DB.asNewIterator, hf, hg, hh, hn,
        pure_eq_ret, Outcome.ret]
  refine ⟨hbodies, ?_, ?_⟩
  · simp [KeyValueTesting, itFind, itFindAfterLast, itGet, itHas, itIter, itIterIndex,
      itIterRange, DB.asFind, DB.asGet, DB.asHas, DB.asNewIterator, pure_eq_ret, Outcome.ret,
      List.replicate]
  · intro s t
    rw [hbodies s, hbodies t]
    refine ⟨?_, ?_, ?_, ?_⟩ <;> intro hq <;> simp [hq]

/-- Witness for C6: on a candidate that has `Get` and nothing else, over the three-entry
dataset, the entry for `Get` makes the lookups of `TestGet` on it and the six other
entries make no call; on the reference candidate, which has all four capabilities, every
entry makes calls and none reports a violation. -/
theorem KeyValueTesting_entries_by_capability_witness :
    ((KeyValueTesting FailHandler.halt specHelpers threeDraws threeKeyValue none (refSetup 1)
        none).entries.map (fun e => e.body (some (getOnlyStore 3 threeKeyValue)))).map
        (fun m => m.log) =
      [[], [],
        [Event.shuffledIndex 3 1, Event.get [99], Event.get [97, 0], Event.get [101],
          Event.get [99, 0], Event.get [97]],
        [], [], [], []] ∧
    ((KeyValueTesting FailHandler.halt specHelpers threeDraws threeKeyValue none (refSetup 1)
        none).entries.map (fun e => e.body (some (refStore 1 threeKeyValue)))).map
        (fun m => (m.log.length, m.failures)) =
      [(7, 0), (1, 0), (6, 0), (6, 0), (3, 0), (19, 0), (10, 0)] := by
  constructor
  · rw [(KeyValueTesting_entries_by_capability FailHandler.halt specHelpers threeDraws
      threeKeyValue none (refSetup 1) none).1 (getOnlyStore 3 threeKeyValue)]
    decide
  · rw [(KeyValueTesting_entries_by_capability FailHandler.halt specHelpers threeDraws
      threeKeyValue none (refSetup 1) none).1 (refStore 1 threeKeyValue)]
    decide

/-- C7: in the range pass every pair (start, limit) handed over by `RandomRange` leads to
exactly one invocation of `TestIter`, on the candidate's iterator over
`kv.Range(start, limit)` and with the expected contents `kv.Slice(start, limit)`; the
invocations of the pass are those of the pairs delivered, in order, and of all pairs when
the pass is not stopped. -/
theorem range_pass_invocations (h : FailHandler) (H : Helpers) (d : Draws) (kv : KeyValue)
    (p : DB) (db : NewIterator) (hdb : p.asNewIterator = some db) :
    (∀ start limit,
      rangeAt h H db kv start limit =
        TestIter h H db (some (kv.Range start limit)) (kv.Slice start limit) ∧
      (rangeAt h H db kv start limit).log.filter Event.isTestIter =
        [Event.testIter (some (kv.Range start limit)) (kv.Slice start limit)] ∧
      (rangeAt h H db kv start limit).log.take 2 =
        [Event.testIter (some (kv.Range start limit)) (kv.Slice start limit),
          Event.newIterator (some (kv.Range start limit))]) ∧
    (∃ k, k ≤ d.pairs.length ∧
      (itIterRange h H d kv p).log.filter Event.isTestIter =
        (d.pairs.take k).map
          (fun x => Event.testIter (some (kv.Range x.1 x.2)) (kv.Slice x.1 x.2)) ∧
      ((itIterRange h H d kv p).val = some () → k = d.pairs.length)) ∧
    ((h = FailHandler.resume ∨ (itIterRange h H d kv p).failures = 0) →
      (itIterRange h H d kv p).log.filter Event.isTestIter =
        d.pairs.map (fun x => Event.testIter (some (kv.Range x.1 x.2)) (kv.Slice x.1 x.2))) := by
  have hbody : ∀ x ∈ d.pairs, (rangeAt h H db kv x.1 x.2).log.filter Event.isTestIter =
      [Event.testIter (some (kv.Range x.1 x.2)) (kv.Slice x.1 x.2)] :=
    fun x _ => (TestIter_invocations h H db _ _).1
  have hpass : itIterRange h H d kv p =
      RandomRange d.pairs kv.Len (Min kv.Len 50) (rangeAt h H db kv) := by
    simp [itIterRange, hdb]
  obtain ⟨hlog, hfail, hval⟩ :=
    random_range_log d.pairs kv.Len (Min kv.Len 50) (rangeAt h H db kv)
  obtain ⟨k, hk, hfilter, hfull⟩ := forEach_filter_take Event.isTestIter
    (fun x => [Event.testIter (some (kv.Range x.1 x.2)) (kv.Slice x.1 x.2)])
    (fun x => rangeAt h H db kv x.1 x.2) d.pairs hbody
  have hmap : ∀ l : List (Nat × Nat),
      l.flatMap (fun x => [Event.testIter (some (kv.Range x.1 x.2)) (kv.Slice x.1 x.2)]) =
      l.map (fun x => Event.testIter (some (kv.Range x.1 x.2)) (kv.Slice x.1 x.2)) := by
    intro l
    induction l with
    | nil => rfl
    | cons a rest ih => simp [List.flatMap_cons, ih]
  have hpassfilter : (itIterRange h H d kv p).log.filter Event.isTestIter =
      (d.pairs.take k).map
        (fun x => Event.testIter (some (kv.Range x.1 x.2)) (kv.Slice x.1 x.2)) := by
    rw [hpass, hlog, ← hmap, ← hfilter]
    simp [Event.isTestIter]
  refine ⟨?_, ⟨k, hk, hpassfilter, ?_⟩, ?_⟩
  · intro start limit
    refine ⟨rfl, (TestIter_invocations h H db _ _).1, ?_⟩
    show (TestIter h H db (some (kv.Range start limit)) (kv.Slice start limit)).log.take 2 = _
    rcases TestIter_cases h H db (some (kv.Range start limit)) (kv.Slice start limit) with
      ⟨he, _⟩ | ⟨_, _, _, hl⟩
    · simp [he]
    · simp [hl]
  · intro hv
    rw [hpass, hval] at hv
    exact hfull hv
  · intro hc
    have hsome : (forEach d.pairs (fun x => rangeAt h H db kv x.1 x.2)).val = some () := by
      refine (forEach_complete _ _ ?_).1
      intro x hx
      refine (TestIter_complete h H db _ _ ?_).1
      rcases hc with hc | hc
      · exact Or.inl hc
      · rw [hpass, hfail] at hc
        exact Or.inr ((forEach_failures _ _ (fun y _ => TestIter_sound h H db _ _)).1 hc x hx)
    rw [hpassfilter, hfull hsome, List.take_length]

/-- Witness for C7: the reference candidate over a three-entry dataset with the pairs
(0, 2), (1, 3), (2, 2). -/
theorem range_pass_invocations_witness :
    DB.asNewIterator (some (refStore 1 threeKeyValue)) = some (refNewIterator threeKeyValue) ∧
    (itIterRange FailHandler.halt specHelpers threeDraws threeKeyValue
        (some (refStore 1 threeKeyValue))).log.filter Event.isTestIter =
      [Event.testIter (some ⟨none, some [101]⟩) ⟨[([97], [49]), ([99], [50])]⟩,
        Event.testIter (some ⟨some [99], none⟩) ⟨[([99], [50]), ([101], [51])]⟩,
        Event.testIter (some ⟨some [101], some [101]⟩) ⟨[]⟩] :=
  ⟨rfl,
    ((range_pass_invocations FailHandler.halt specHelpers threeDraws threeKeyValue
      (some (refStore 1 threeKeyValue)) (refNewIterator threeKeyValue) rfl).2.2
      (Or.inr (by decide))).trans (by decide)⟩

/-- C8: on a candidate that can iterate, the index pass makes the one sampler request
`RandomIndex(rnd, kv.Len(), Min(kv.Len(), 50), ..)` and the range pass the one request
`RandomRange(rnd, kv.Len(), Min(kv.Len(), 50), ..)`; the count asked for is the minimum of
the dataset length and 50, so it is at most 50, at most the dataset length, and 0 for the
empty dataset. -/
theorem sampled_passes_request (h : FailHandler) (H : Helpers) (d : Draws) (kv : KeyValue)
    (p0 : DB) (setup : KeyValue → Outcome DB) (teardown : Option (DB → Outcome Unit))
    (p : DB) (db : NewIterator) (hdb : p.asNewIterator = some db) :
    ((KeyValueTesting h H d kv p0 setup teardown).entries.drop 5).map
        (fun e => (e.body p).log.filter Event.isRequest) =
      [[Event.randomIndex kv.Len (Min kv.Len 50)], [Event.randomRange kv.Len (Min kv.Len 50)]] ∧
    Min kv.Len 50 = min kv.Len 50 ∧
    Min kv.Len 50 ≤ 50 ∧
    Min kv.Len 50 ≤ kv.Len ∧
    (kv.Len = 0 → Min kv.Len 50 = 0) := by
  have hidx : (forEach d.indices (indexAt h H db kv)).log.filter Event.isRequest = [] :=
    forEach_filter_nil _ _ _ (fun i _ => indexAt_requests h H db kv i)
  have hrng : (forEach d.pairs (fun x => rangeAt h H db kv x.1 x.2)).log.filter
      Event.isRequest = [] :=
    forEach_filter_nil _ _ _ (fun x _ => (TestIter_invocations h H db _ _).2.1)
  have hmin := Min_eq_min kv.Len 50
  refine ⟨?_, hmin, ?_, ?_, ?_⟩
  · simp [KeyValueTesting, itIterIndex, itIterRange, hdb,
      (random_index_log d.indices kv.Len (Min kv.Len 50) (indexAt h H db kv)).1,
      (random_range_log d.pairs kv.Len (Min kv.Len 50) (rangeAt h H db kv)).1,
      Event.isRequest]
    exact ⟨fun a ha => by
        have := hidx
        rw [List.filter_eq_nil_iff] at this
        simpa using this a ha,
      fun a ha => by
        have := hrng
        rw [List.filter_eq_nil_iff] at this
        simpa using this a ha⟩
  · omega
  · omega
  · intro h0
    omega

/-- Witness for C8: the reference candidate over a three-entry dataset is asked for
`Min 3 50 = 3` samples in both passes. -/
theorem sampled_passes_request_witness :
    DB.asNewIterator (some (refStore 1 threeKeyValue)) = some (refNewIterator threeKeyValue) ∧
    ((KeyValueTesting FailHandler.halt specHelpers threeDraws threeKeyValue none (refSetup 1)
          (some refTeardown)).entries.drop 5).map
        (fun e => (e.body (some (refStore 1 threeKeyValue))).log.filter Event.isRequest) =
      [[Event.randomIndex 3 3], [Event.randomRange 3 3]] :=
  ⟨rfl,
    (sampled_passes_request FailHandler.halt specHelpers threeDraws threeKeyValue none
      (refSetup 1) (some refTeardown) (some (refStore 1 threeKeyValue))
      (refNewIterator threeKeyValue) rfl).1.trans (by decide)⟩

/-- C9 fails as stated: when `KeyValueTesting` is given a pre-built candidate, no entry of
the seven runs the setup or the teardown collaborator, although both are supplied; with
no pre-built candidate every entry runs both. -/
theorem prebuilt_candidate_runs_no_setup :
    (KeyValueTesting FailHandler.halt specHelpers threeDraws threeKeyValue
        (some (refStore 7 threeKeyValue)) (refSetup 8) (some refTeardown)).entries.map
      (fun e =>
        ((KeyValueTesting FailHandler.halt specHelpers threeDraws threeKeyValue
          (some (refStore 7 threeKeyValue)) (refSetup 8) (some refTeardown)).run e).log.filter
          Event.isLifecycle) =
      [[], [], [], [], [], [], []] ∧
    (KeyValueTesting FailHandler.halt specHelpers threeDraws threeKeyValue
        none (refSetup 8) (some refTeardown)).entries.map
      (fun e =>
        ((KeyValueTesting FailHandler.halt specHelpers threeDraws threeKeyValue
          none (refSetup 8) (some refTeardown)).run e).log.filter Event.isLifecycle) =
      List.replicate 7 [Event.setup threeKeyValue, Event.teardown (some 8)] := by
  decide

/-- C9 as amended: when `KeyValueTesting` is called with no pre-built candidate, an entry
runs as one call of `setup(kv)`, then the entry on the candidate that call returned, then,
when `teardown` is not nil, one call of `teardown` on that same candidate; when it is
called with a pre-built candidate the run of an entry is the entry on that candidate and
nothing else; and in the call made by `AllKeyValueTesting` the run of an entry is the
entry on the candidate built before the suite (or by `body`) and nothing else. -/
theorem KeyValueTesting_lifecycle (h : FailHandler) (H : Helpers) (d : Draws) (kv : KeyValue)
    (setup : KeyValue → Outcome DB) (teardown : Option (DB → Outcome Unit)) (e : Entry)
    (q : DB) (ls : List Event) (n : Nat) (hs : setup kv = ⟨some q, ls, n⟩) :
    ((KeyValueTesting h H d kv none setup teardown).run e).log =
      ls ++ (e.body q).log ++
        (match teardown with
          | some td => (td q).log
          | none => []) ∧
    (∀ s : Store,
      ((KeyValueTesting h H d kv (some s) setup teardown).run e).log = (e.body (some s)).log ∧
      ((KeyValueTesting h H d kv (some s) setup teardown).run e).failures =
        (e.body (some s)).failures) ∧
    (∀ deferred : Option DB,
      ((AllKeyValueTesting.Test h H d none deferred kv).run e).log =
        (e.body (deferred.getD none)).log) ∧
    (∀ (body : KeyValue → DB) (s : Store) (deferred : Option DB), body kv = some s →
      ((AllKeyValueTesting.Test h H d (some body) deferred kv).run e).log =
        (e.body (some s)).log) := by
  refine ⟨?_, ?_, ?_, ?_⟩
  · cases teardown with
    | none =>
      simp [Registered.run, KeyValueTesting, runHooks, forEach, Outcome.andThen, Outcome.ret, hs]
    | some td =>
      cases hv : (td q).val <;>
        simp [Registered.run, KeyValueTesting, runHooks, forEach, Outcome.andThen, Outcome.ret,
          hs, hv]
  · intro s
    cases hv : (e.body (some s)).val <;>
      simp [Registered.run, KeyValueTesting, runHooks, forEach, Outcome.andThen, Outcome.ret, hv]
  · intro deferred
    cases deferred <;>
      simp [AllKeyValueTesting.Test, Registered.run, KeyValueTesting, runHooks, forEach,
        Outcome.andThen, Outcome.ret, pure_eq_ret]
  · intro body s deferred hb
    cases deferred <;>
      simp [AllKeyValueTesting.Test, Registered.run, KeyValueTesting, runHooks, forEach,
        Outcome.andThen, Outcome.ret, pure_eq_ret, hb]

/-- Witness for C9 as amended: with no pre-built candidate, the run of the
find-after-last entry is the setup call, the one lookup on the candidate that setup
built, and the teardown of that candidate. -/
theorem KeyValueTesting_lifecycle_witness :
    refSetup 8 threeKeyValue =
      ⟨some (some (refStore 8 threeKeyValue)), [Event.setup threeKeyValue], 0⟩ ∧
    ((KeyValueTesting FailHandler.halt specHelpers threeDraws threeKeyValue none (refSetup 8)
        (some refTeardown)).run
        ⟨"Should return error if Find on key after the last",
          itFindAfterLast FailHandler.halt specHelpers threeKeyValue⟩).log =
      [Event.setup threeKeyValue, Event.find [101, 0], Event.teardown (some 8)] :=
  ⟨rfl,
    (KeyValueTesting_lifecycle FailHandler.halt specHelpers threeDraws threeKeyValue
      (refSetup 8) (some refTeardown)
      ⟨"Should return error if Find on key after the last",
        itFindAfterLast FailHandler.halt specHelpers threeKeyValue⟩
      (some (refStore 8 threeKeyValue)) [Event.setup threeKeyValue] 0 rfl).1.trans
      (by decide)⟩

/-- C10 fails as stated: on a candidate whose iterators are in the error state, and
under the fail handler that `RunSuite` registers, the callback of the index pass for the
delivered index 1 makes one oracle invocation, not two, and the whole pass makes that one
invocation; under a handler that only records, the same callback makes the two. -/
theorem index_pass_stopped_after_first :
    (indexAt FailHandler.halt (tableHelpers [[96], [98], [100]]) brokenNewIterator
        threeKeyValue 1).log.filter Event.isTestIter =
      [Event.testIter (some ⟨some [98], none⟩) ⟨[([99], [50]), ([101], [51])]⟩] ∧
    (itIterIndex FailHandler.halt (tableHelpers [[96], [98], [100]]) threeDraws threeKeyValue
        (some ⟨9, none, none, none, some brokenNewIterator⟩)).log.filter Event.isTestIter =
      [Event.testIter (some ⟨some [98], none⟩) ⟨[([99], [50]), ([101], [51])]⟩] ∧
    (indexAt FailHandler.resume (tableHelpers [[96], [98], [100]]) brokenNewIterator
        threeKeyValue 1).log.filter Event.isTestIter =
      [Event.testIter (some ⟨some [98], none⟩) ⟨[([99], [50]), ([101], [51])]⟩,
        Event.testIter (some ⟨none, some [98]⟩) ⟨[([97], [49])]⟩] := by
  decide

/-- C10 as amended: in the index pass the callback for an index `i` is the invocation of
`TestIter` on the range with lower bound the probe key of `i` and no upper bound,
expecting `kv.Slice(i, kv.Len())`, followed by the invocation on the range with no lower
bound and upper bound that probe key, expecting `kv.Slice(0, i)`. These are its two oracle
invocations, in this order, when the first reports no violation or the fail handler only
records; when the first reports a violation under the halting handler the entry stops
there and the first is its only invocation. The two expected slices put together are the
whole dataset and share no key. -/
theorem index_pass_invocations (h : FailHandler) (H : Helpers) (d : Draws) (kv : KeyValue)
    (p : DB) (db : NewIterator) (hdb : p.asNewIterator = some db) :
    (∀ i,
      indexAt h H db kv i =
        Outcome.andThen
          (TestIter h H db (some ⟨some (kv.IndexInexact H i).1, none⟩) (kv.Slice i kv.Len))
          (fun _ =>
            TestIter h H db (some ⟨none, some (kv.IndexInexact H i).1⟩) (kv.Slice 0 i)) ∧
      ((h = FailHandler.resume ∨
          (TestIter h H db (some ⟨some (kv.IndexInexact H i).1, none⟩)
            (kv.Slice i kv.Len)).failures = 0) →
        (indexAt h H db kv i).log.filter Event.isTestIter =
          [Event.testIter (some ⟨some (kv.IndexInexact H i).1, none⟩) (kv.Slice i kv.Len),
            Event.testIter (some ⟨none, some (kv.IndexInexact H i).1⟩) (kv.Slice 0 i)]) ∧
      (kv.Slice 0 i).entries ++ (kv.Slice i kv.Len).entries = kv.entries ∧
      ((kv.entries.map Prod.fst).Nodup →
        List.Disjoint ((kv.Slice 0 i).entries.map Prod.fst)
          ((kv.Slice i kv.Len).entries.map Prod.fst)) ∧
      ((h = FailHandler.halt ∧
          (TestIter h H db (some ⟨some (kv.IndexInexact H i).1, none⟩)
            (kv.Slice i kv.Len)).failures ≠ 0) →
        (indexAt h H db kv i).val = none ∧
        (indexAt h H db kv i).log.filter Event.isTestIter =
          [Event.testIter (some ⟨some (kv.IndexInexact H i).1, none⟩) (kv.Slice i kv.Len)])) ∧
    ((h = FailHandler.resume ∨ (itIterIndex h H d kv p).failures = 0) →
      (itIterIndex h H d kv p).log.filter Event.isTestIter =
        d.indices.flatMap (fun i =>
          [Event.testIter (some ⟨some (kv.IndexInexact H i).1, none⟩) (kv.Slice i kv.Len),
            Event.testIter (some ⟨none, some (kv.IndexInexact H i).1⟩) (kv.Slice 0 i)])) := by
  constructor
  · intro i
    refine ⟨indexAt_eq h H db kv i, indexAt_complete h H db kv i, slice_split kv i,
      keys_disjoint kv i, ?_⟩
    rintro ⟨hh, hf⟩
    subst hh
    exact indexAt_stopped H db kv i hf
  · intro hc
    have hpass : itIterIndex h H d kv p =
        RandomIndex d.indices kv.Len (Min kv.Len 50) (indexAt h H db kv) := by
      simp [itIterIndex, hdb]
    obtain ⟨hlog, hfail, _⟩ :=
      random_index_log d.indices kv.Len (Min kv.Len 50) (indexAt h H db kv)
    have hci : ∀ i ∈ d.indices, h = FailHandler.resume ∨ (indexAt h H db kv i).failures = 0 := by
      intro i hi
      rcases hc with hc | hc
      · exact Or.inl hc
      · rw [hpass, hfail] at hc
        exact Or.inr ((forEach_failures _ _ (fun j _ => indexAt_sound h H db kv j)).1 hc i hi)
    have hfirst : ∀ i ∈ d.indices, h = FailHandler.resume ∨
        (TestIter h H db (some ⟨some (kv.IndexInexact H i).1, none⟩)
          (kv.Slice i kv.Len)).failures = 0 := by
      intro i hi
      rcases hci i hi with hr | hf
      · exact Or.inl hr
      · exact Or.inr ((indexAt_failures h H db kv i).1 hf).1
    obtain ⟨k, _, hfilter, hfull⟩ := forEach_filter_take Event.isTestIter
      (fun i =>
        [Event.testIter (some ⟨some (kv.IndexInexact H i).1, none⟩) (kv.Slice i kv.Len),
          Event.testIter (some ⟨none, some (kv.IndexInexact H i).1⟩) (kv.Slice 0 i)])
      (indexAt h H db kv) d.indices
      (fun i hi => indexAt_complete h H db kv i (hfirst i hi))
    have hsome : (forEach d.indices (indexAt h H db kv)).val = some () :=
      (forEach_complete _ _ (fun i hi => indexAt_val h H db kv i (hci i hi))).1
    rw [hfull hsome, List.take_length] at hfilter
    rw [hpass, hlog, ← hfilter]
    simp [Event.isTestIter]

/-- Witness for C10 as amended: the reference candidate over a three-entry dataset with
the probe keys "`", "b", "d" and the sampled indices 1, 2, 0. -/
theorem index_pass_invocations_witness :
    DB.asNewIterator (some (refStore 1 threeKeyValue)) = some (refNewIterator threeKeyValue) ∧
    (itIterIndex FailHandler.halt (tableHelpers [[96], [98], [100]]) threeDraws threeKeyValue
        (some (refStore 1 threeKeyValue))).failures = 0 ∧
    (itIterIndex FailHandler.halt (tableHelpers [[96], [98], [100]]) threeDraws threeKeyValue
        (some (refStore 1 threeKeyValue))).log.filter Event.isTestIter =
      [Event.testIter (some ⟨some [98], none⟩) ⟨[([99], [50]), ([101], [51])]⟩,
        Event.testIter (some ⟨none, some [98]⟩) ⟨[([97], [49])]⟩,
        Event.testIter (some ⟨some [100], none⟩) ⟨[([101], [51])]⟩,
        Event.testIter (some ⟨none, some [100]⟩) ⟨[([97], [49]), ([99], [50])]⟩,
        Event.testIter (some ⟨some [96], none⟩)
          ⟨[([97], [49]), ([99], [50]), ([101], [51])]⟩,
        Event.testIter (some ⟨none, some [96]⟩) ⟨[]⟩] :=
  ⟨rfl, by decide,
    ((index_pass_invocations FailHandler.halt (tableHelpers [[96], [98], [100]]) threeDraws
      threeKeyValue (some (refStore 1 threeKeyValue)) (refNewIterator threeKeyValue) rfl).2
      (Or.inr (by decide))).trans (by decide)⟩

end Testutil
